import Mathlib

/-!
Ryujinx.Memory native region tracker (`src/Ryujinx.Memory/Native/main.cpp`)

A shallow embedding of the Windows build of the tracker (`TARGET_WINDOWS` is
defined on the first line of the file): the fixed table `g_regions`, the slot
primitives `AllocateRegion` / `FreeRegion`, the vectored exception handler
`ExceptionHandler`, and the exported `StartTrackingRegion` /
`StopTrackingRegion`.

Conventions of the embedding.
* Pointers, `size_t` and `ULONG_PTR` values are natural numbers; the casts to
  `unsigned long long` and the arithmetic on them are taken modulo `2 ^ 64`.
* A `TrackedRegion*` into `g_regions` is the slot index, `NULL` is `none`.
* A resolver (`Action`) is a function pointer; what the code behind a pointer
  returns is given by a parameter `call action offset kind`.  The handler
  returns its decision together with the list of resolver calls it made.
* The list of vectored handlers kept by the operating system is explicit state.
-/

namespace Ryujinx

/-! ## Constants and types -/

/-- The table capacity, `#define MAX_TRACKED_REGIONS (32)`. -/
abbrev MAX_TRACKED_REGIONS : Nat := 32

/-- The cast `#define C_ULONG(x) ((unsigned long long)x)`. -/
def C_ULONG (x : Nat) : Nat := x % 2 ^ 64

/-- The implicit conversion of a `ULONG_PTR` argument to the `int` parameter of
a resolver: the low 32 bits, read as a signed 32-bit number. -/
def toInt32 (x : Nat) : Int :=
  if x % 2 ^ 32 < 2 ^ 31 then ((x % 2 ^ 32 : Nat) : Int) else ((x % 2 ^ 32 : Nat) : Int) - 2 ^ 32

/-- The Windows status code `EXCEPTION_ACCESS_VIOLATION` (`0xC0000005`). -/
def EXCEPTION_ACCESS_VIOLATION : Nat := 0xC0000005

/-- The Windows filter result `EXCEPTION_CONTINUE_SEARCH`: decline. -/
def EXCEPTION_CONTINUE_SEARCH : Int := 0

/-- The Windows filter result `EXCEPTION_CONTINUE_EXECUTION`: resume. -/
def EXCEPTION_CONTINUE_EXECUTION : Int := -1

/-- The struct `TrackedRegion`, field for field. -/
structure TrackedRegion where
  Valid : Int
  Size : Nat
  Address : Nat
  Handle : Nat
  Action : Nat
  deriving DecidableEq, Repr

/-- A slot index into `g_regions`. -/
abbrev Slot := Fin MAX_TRACKED_REGIONS

/-- The global `TrackedRegion g_regions[MAX_TRACKED_REGIONS]`. -/
abbrev Table := Slot → TrackedRegion

/-- The zero-initialised global table at program start: every slot invalid. -/
def emptyTable : Table := fun _ => ⟨0, 0, 0, 0, 0⟩

/-- The slot indices in the order of `for (i = 0; i < MAX_TRACKED_REGIONS; i++)`. -/
def slotIndices : List Slot := List.finRange MAX_TRACKED_REGIONS

/-- The fields of `EXCEPTION_RECORD` the handler reads: the exception code and
the first two entries of `ExceptionInformation`. -/
structure EXCEPTION_RECORD where
  ExceptionCode : Nat
  ExceptionInformation0 : Nat
  ExceptionInformation1 : Nat
  deriving DecidableEq, Repr

/-- One resolver call made by the handler: the slot whose `Action` was called,
the function pointer, and the two arguments. -/
structure Invocation where
  slot : Slot
  action : Nat
  offset : Nat
  kind : Int
  deriving DecidableEq, Repr

/-- The behaviour of the code behind resolver pointers:
`call action offset kind` is the `int` the call returns. -/
abbrev Resolvers := Nat → Nat → Int → Int

/-- The process state: the table and the operating system list of installed
vectored exception handlers, each entry the handle of one installed instance
of `ExceptionHandler`, most recently installed first. -/
structure State where
  g_regions : Table
  handlers : List Nat

/-- The state at program start. -/
def initState : State := ⟨emptyTable, []⟩

/-! ## The slot primitives -/

/-- The loop of `AllocateRegion` over the remaining indices: the first slot with
`!Valid` gets `Valid = 1` and is returned; `NULL` when the indices run out. -/
def AllocateRegion.scan (g : Table) : List Slot → Table × Option Slot
  | [] => (g, none)
  | i :: rest =>
    if (g i).Valid = 0 then
      (Function.update g i { g i with Valid := 1 }, some i)
    else
      AllocateRegion.scan g rest

/-- The function `static TrackedRegion* AllocateRegion()`. -/
def AllocateRegion (g : Table) : Table × Option Slot :=
  AllocateRegion.scan g slotIndices

/-- The function `static void FreeRegion(TrackedRegion* region)`. -/
def FreeRegion (g : Table) (region : Slot) : Table :=
  Function.update g region { g region with Valid := 0 }

/-! ## The exception handler -/

/-- The range test in the `if` of the handler, on one slot copy `rg`:
`rg.Valid && C_ULONG(rg.Address) <= C_ULONG(exceptionAddress) &&
C_ULONG(rg.Address) + C_ULONG(rg.Size) > C_ULONG(exceptionAddress)`. -/
def hits (rg : TrackedRegion) (exceptionAddress : Nat) : Bool :=
  decide (rg.Valid ≠ 0) &&
  decide (C_ULONG rg.Address ≤ C_ULONG exceptionAddress) &&
  decide ((C_ULONG rg.Address + C_ULONG rg.Size) % 2 ^ 64 > C_ULONG exceptionAddress)

/-- The first argument of the resolver call:
`C_ULONG(exceptionAddress) - C_ULONG(rg.Address)` in 64-bit unsigned arithmetic. -/
def faultOffset (rg : TrackedRegion) (exceptionAddress : Nat) : Nat :=
  (C_ULONG exceptionAddress + 2 ^ 64 - C_ULONG rg.Address) % 2 ^ 64

/-- The scan loop of the Windows `ExceptionHandler` over the remaining indices.
A hit calls the `Action` of the slot; a nonzero result returns
`EXCEPTION_CONTINUE_EXECUTION`, a zero result falls out of the `if` and the
loop goes on; after the last index the result is `EXCEPTION_CONTINUE_SEARCH`. -/
def ExceptionHandler.scan (call : Resolvers) (g : Table) (exceptionAddress info0 : Nat) :
    List Slot → Int × List Invocation
  | [] => (EXCEPTION_CONTINUE_SEARCH, [])
  | i :: rest =>
    let rg := g i
    if hits rg exceptionAddress then
      let inv : Invocation := ⟨i, rg.Action, faultOffset rg exceptionAddress, toInt32 info0⟩
      let handled := call rg.Action inv.offset inv.kind
      if handled ≠ 0 then
        (EXCEPTION_CONTINUE_EXECUTION, [inv])
      else
        let r := ExceptionHandler.scan call g exceptionAddress info0 rest
        (r.1, inv :: r.2)
    else
      ExceptionHandler.scan call g exceptionAddress info0 rest

/-- The function `int ExceptionHandler(EXCEPTION_POINTERS*)` of the Windows
build: the decision and the resolver calls made, in order. -/
def ExceptionHandler (call : Resolvers) (g : Table) (rec : EXCEPTION_RECORD) :
    Int × List Invocation :=
  if rec.ExceptionCode ≠ EXCEPTION_ACCESS_VIOLATION then
    (EXCEPTION_CONTINUE_SEARCH, [])
  else
    ExceptionHandler.scan call g rec.ExceptionInformation1 rec.ExceptionInformation0 slotIndices

/-! ## The exported operations -/

/-- The Windows call `AddVectoredExceptionHandler(1, ExceptionHandler)`:
`osHandle` is what the operating system answers, `0` (`NULL`) when it refuses;
a granted handle is put at the front of the handler list. -/
def AddVectoredExceptionHandler (handlers : List Nat) (osHandle : Nat) : List Nat × Nat :=
  if osHandle = 0 then (handlers, 0) else (osHandle :: handlers, osHandle)

/-- The Windows call `RemoveVectoredExceptionHandler(handle)`: the handler
registered under `handle`, if any, leaves the list. -/
def RemoveVectoredExceptionHandler (handlers : List Nat) (handle : Nat) : List Nat :=
  handlers.erase handle

/-- The exported `StartTrackingRegion(address, size, action)`; `osHandle` is the
answer of the operating system to the hook installation, should it be asked. -/
def StartTrackingRegion (address size action osHandle : Nat) (s : State) :
    State × Option Slot :=
  match AllocateRegion s.g_regions with
  | (g1, none) => (⟨g1, s.handlers⟩, none)
  | (g1, some region) =>
    let (handlers1, handle) := AddVectoredExceptionHandler s.handlers osHandle
    if handle = 0 then
      (⟨FreeRegion g1 region, handlers1⟩, none)
    else
      (⟨Function.update g1 region
          { g1 region with Address := address, Size := size, Handle := handle, Action := action },
        handlers1⟩, some region)

/-- The exported `StopTrackingRegion(region)`. -/
def StopTrackingRegion (region : Slot) (s : State) : State :=
  ⟨FreeRegion s.g_regions region,
   RemoveVectoredExceptionHandler s.handlers (s.g_regions region).Handle⟩

/-- One call of the exported interface. -/
inductive Op where
  | start (address size action osHandle : Nat)
  | stop (region : Slot)
  deriving DecidableEq, Repr

/-- Performs one call; the result is the handle returned by `StartTrackingRegion`
and `none` for `StopTrackingRegion` (which returns nothing). -/
def step (s : State) : Op → State × Option Slot
  | .start address size action osHandle => StartTrackingRegion address size action osHandle s
  | .stop region => (StopTrackingRegion region s, none)

/-- Performs a sequence of calls, collecting the results in order. -/
def run (s : State) : List Op → State × List (Option Slot)
  | [] => (s, [])
  | op :: ops =>
    let r := step s op
    let rs := run r.1 ops
    (rs.1, r.2 :: rs.2)

/-! ## Vocabulary of the statements -/

/-- A slot copy is live when its `Valid` flag is nonzero. -/
def TrackedRegion.live (rg : TrackedRegion) : Prop := rg.Valid ≠ 0

instance (rg : TrackedRegion) : Decidable rg.live := by
  unfold TrackedRegion.live; infer_instance

/-- The half-open range `[Address, Address + Size)` of the data model, with the
sum taken as an unbounded integer, contains the address `a`. -/
def TrackedRegion.contains (rg : TrackedRegion) (a : Nat) : Prop :=
  rg.Address ≤ a ∧ a < rg.Address + rg.Size

instance (rg : TrackedRegion) (a : Nat) : Decidable (rg.contains a) := by
  unfold TrackedRegion.contains; infer_instance

/-- Every `Address` and `Size` of the table is a 64-bit value, as `void*` and
`size_t` fields are. -/
def wellFormed (g : Table) : Prop :=
  ∀ i : Slot, (g i).Address < 2 ^ 64 ∧ (g i).Size < 2 ^ 64

/-- A call that registers 64-bit arguments, or a deregistration. -/
def Op.wellFormed : Op → Prop
  | .start address size _ _ => address < 2 ^ 64 ∧ size < 2 ^ 64
  | .stop _ => True

/-- The call is a `StartTrackingRegion` whose hook installation is granted. -/
def Op.isGrantedStart : Op → Prop
  | .start _ _ _ osHandle => osHandle ≠ 0
  | .stop _ => False

/-- The call is a `StartTrackingRegion`. -/
def Op.isStart : Op → Prop
  | .start _ _ _ _ => True
  | .stop _ => False

/-- The record describes an access violation at address `a`. -/
def EXCEPTION_RECORD.isFaultAt (rec : EXCEPTION_RECORD) (a : Nat) : Prop :=
  rec.ExceptionCode = EXCEPTION_ACCESS_VIOLATION ∧ rec.ExceptionInformation1 = a

end Ryujinx

namespace Ryujinx

/-- The invocation the handler makes for slot `i`. -/
def invocationOf (g : Table) (exceptionAddress info0 : Nat) (i : Slot) : Invocation :=
  ⟨i, (g i).Action, faultOffset (g i) exceptionAddress, toInt32 info0⟩

/-- The slots below index `k` are live and the slots from `k` on are free: the
table after `k` registrations into the empty table. -/
def filledTo (k : Nat) (g : Table) : Prop :=
  ∀ i : Slot, (i.val < k → (g i).Valid ≠ 0) ∧ (k ≤ i.val → (g i).Valid = 0)

instance : DecidablePred Op.wellFormed := fun op => by
  cases op <;> unfold Op.wellFormed <;> infer_instance

instance : DecidablePred Op.isGrantedStart := fun op => by
  cases op <;> unfold Op.isGrantedStart <;> infer_instance

instance : DecidablePred Op.isStart := fun op => by
  cases op <;> unfold Op.isStart <;> infer_instance

instance (rec : EXCEPTION_RECORD) (a : Nat) : Decidable (rec.isFaultAt a) := by
  unfold EXCEPTION_RECORD.isFaultAt; infer_instance

instance (g : Table) : Decidable (wellFormed g) := by
  unfold wellFormed; infer_instance

/-- A table whose slot 0 tracks the last page of the address space,
`[2 ^ 64 - 0x1000, 2 ^ 64)`, with resolver pointer 7; every other slot free. -/
def lastPageTable : Table :=
  Function.update emptyTable 0 ⟨1, 0x1000, 0xFFFFFFFFFFFFF000, 99, 7⟩

/-- Resolvers that all report the fault as remedied. -/
def alwaysTrue : Resolvers := fun _ _ _ => 1

/-- A table with two overlapping live regions: slot 2 tracks `[0x1000, 0x3000)`
with resolver pointer 7, slot 5 tracks `[0, 0x4000)` with resolver pointer 8. -/
def overlapTable : Table :=
  Function.update (Function.update emptyTable 2 ⟨1, 0x2000, 0x1000, 99, 7⟩) 5
    ⟨1, 0x4000, 0, 98, 8⟩

/-- Four calls that reuse a freed slot: a first region takes slot 0, region R1
(`[0x1000, 0x3000)`, resolver pointer 11) takes slot 1, the first region is
deregistered, and region R2 (same range, resolver pointer 22) takes slot 0. -/
def reuseOps : List Op :=
  [Op.start 0x9000 0x1000 33 101, Op.start 0x1000 0x2000 11 102, Op.stop 0,
   Op.start 0x1000 0x2000 22 103]

/-- The state after region R1 (`[0x1000, 0x3000)`, resolver pointer 11) is
registered first. -/
def afterR1 : State := (StartTrackingRegion 0x1000 0x2000 11 102 initState).1

/-- The state after one more registration, of `[0x9000, 0xA000)`. -/
def afterMid : State := (run afterR1 [Op.start 0x9000 0x1000 33 101]).1

/-- The state after region R2 (`[0x1000, 0x3000)`, resolver pointer 22) is
registered. -/
def afterR2 : State := (StartTrackingRegion 0x1000 0x2000 22 103 afterMid).1

/-- The state after the region in between is deregistered. -/
def afterPost : State := (run afterR2 [Op.stop 1]).1

/-- A table whose slot 3 tracks the last two pages of the address space,
`[2 ^ 64 - 0x2000, 2 ^ 64)`, with resolver pointer 7; every other slot free. -/
def lastPagesTable : Table :=
  Function.update emptyTable 3 ⟨1, 0x2000, 0xFFFFFFFFFFFFE000, 99, 7⟩

/-- The state after one registration of `[0x1000, 0x3000)` with resolver
pointer 7 into the empty table. -/
def oneRegionState : State := (StartTrackingRegion 0x1000 0x2000 7 99 initState).1

/-- The state after two registrations of the same range `[0x1000, 0x3000)`, the
first with resolver pointer 11 and the second with resolver pointer 22. -/
def twoRegionsState : State :=
  (run initState [Op.start 0x1000 0x2000 11 101, Op.start 0x1000 0x2000 22 102]).1

/-- Resolvers of which only the one behind pointer 22 reports the fault as
remedied. -/
def onlySecondResolves : Resolvers := fun action _ _ => if action = 22 then 1 else 0

/-- The state after 32 registrations into the empty table. -/
def fullState : State := (run initState (List.replicate 32 (Op.start 0x1000 0x2000 7 99))).1

/-- The state after three registrations of the same range `[0x1000, 0x3000)`,
with resolver pointers 11, 22 and 33. -/
def threeRegionsState : State :=
  (run initState [Op.start 0x1000 0x2000 11 101, Op.start 0x1000 0x2000 22 102,
    Op.start 0x1000 0x2000 33 103]).1

/-- The table after the third of the three registrations is stopped, the first
is stopped as well, and a region `[0x7000, 0x8000)` is registered (into slot 0). -/
def afterStopTable : Table :=
  (run (StopTrackingRegion 2 threeRegionsState)
    [Op.stop 0, Op.start 0x7000 0x1000 44 104]).1.g_regions

/-- The states a call of `StartTrackingRegion` passes through, one after each
write to `g_regions` or to the handler list, in the order of the source:
`Valid = 1` in `AllocateRegion`, the hook installation, and then either
`Valid = 0` in `FreeRegion` or the writes of `Address`, `Size`, `Handle` and
`Action`.  With a full table nothing is written. -/
def StartTrackingRegion.states (address size action osHandle : Nat) (s : State) : List State :=
  match AllocateRegion s.g_regions with
  | (_, none) => []
  | (g1, some region) =>
    let (handlers1, handle) := AddVectoredExceptionHandler s.handlers osHandle
    if handle = 0 then
      [⟨g1, s.handlers⟩, ⟨g1, handlers1⟩, ⟨FreeRegion g1 region, handlers1⟩]
    else
      let g2 := Function.update g1 region { g1 region with Address := address }
      let g3 := Function.update g2 region { g2 region with Size := size }
      let g4 := Function.update g3 region { g3 region with Handle := handle }
      let g5 := Function.update g4 region { g4 region with Action := action }
      [⟨g1, s.handlers⟩, ⟨g1, handlers1⟩, ⟨g2, handlers1⟩, ⟨g3, handlers1⟩, ⟨g4, handlers1⟩,
        ⟨g5, handlers1⟩]

/-- The state left by a registration and deregistration of `[0x1000, 0x3000)`
with resolver pointer 7: slot 0 is free and still carries that range. -/
def staleState : State := StopTrackingRegion 0 oneRegionState

/-- The elements of a list up to and including the first one that satisfies
`p`, and all of them if none does. -/
def upToFirst {α : Type} (p : α → Bool) : List α → List α
  | [] => []
  | x :: xs => if p x then [x] else x :: upToFirst p xs

/-- The resolver call described by `inv` returns nonzero. -/
def resolves (call : Resolvers) (inv : Invocation) : Bool :=
  call inv.action inv.offset inv.kind != 0

/-- The calls of the handler as the description of its dispatch gives them: the
live slots whose range contains the address and ends below `2 ^ 64`, in
ascending index, up to and including the first whose resolver returns
nonzero. -/
def dispatchedCalls (call : Resolvers) (g : Table) (a info0 : Nat) : List Invocation :=
  upToFirst (resolves call)
    ((slotIndices.filter
        (fun i => decide ((g i).live ∧ (g i).contains a ∧ (g i).Address + (g i).Size < 2 ^ 64))).map
      (invocationOf g a info0))

/-- A table with two live regions at the top of the address space: slot 0
tracks `[2 ^ 64 - 0x1000, 2 ^ 64)` with resolver pointer 11, slot 1 tracks
`[2 ^ 64 - 0x3000, 2 ^ 64 - 1)` with resolver pointer 22. -/
def topOverlapTable : Table :=
  Function.update (Function.update emptyTable 0 ⟨1, 0x1000, 0xFFFFFFFFFFFFF000, 90, 11⟩) 1
    ⟨1, 0x2FFF, 0xFFFFFFFFFFFFD000, 91, 22⟩

/-- Resolvers that all decline. -/
def neverResolves : Resolvers := fun _ _ _ => 0

/-! ## Facts about the index order -/

theorem mem_slotIndices (i : Slot) : i ∈ slotIndices :=
  List.mem_finRange i

theorem slotIndices_sorted : slotIndices.Pairwise (· < ·) :=
  List.pairwise_lt_finRange _

/-- The index list splits around any slot into the lower and the higher indices. -/
theorem slotIndices_split (i : Slot) :
    ∃ lo hi, slotIndices = lo ++ i :: hi ∧ (∀ j ∈ lo, j < i) ∧ (∀ j ∈ hi, i < j) ∧
      (∀ j, j < i → j ∈ lo) := by
  obtain ⟨lo, hi, h⟩ := List.append_of_mem (mem_slotIndices i)
  have hs := slotIndices_sorted
  rw [h, List.pairwise_append] at hs
  obtain ⟨_, hhi, hlo⟩ := hs
  rw [List.pairwise_cons] at hhi
  refine ⟨lo, hi, h, fun j hj => hlo j hj i (List.mem_cons_self _ _), hhi.1, ?_⟩
  intro j hj
  have hm := mem_slotIndices j
  rw [h, List.mem_append, List.mem_cons] at hm
  rcases hm with hm | hm | hm
  · exact hm
  · exact absurd hm (ne_of_lt hj)
  · exact absurd (hhi.1 j hm) (not_lt_of_gt hj)

/-! ## `AllocateRegion` -/

theorem AllocateRegion.scan_all_live (g : Table) (l : List Slot)
    (h : ∀ i ∈ l, (g i).Valid ≠ 0) : AllocateRegion.scan g l = (g, none) := by
  induction l with
  | nil => rfl
  | cons i rest ih =>
    have hi := h i (List.mem_cons_self _ _)
    simp only [AllocateRegion.scan, hi, if_false]
    exact ih (fun j hj => h j (List.mem_cons_of_mem _ hj))

theorem AllocateRegion.scan_first_free (g : Table) (lo hi : List Slot) (i : Slot)
    (hlo : ∀ j ∈ lo, (g j).Valid ≠ 0) (hi0 : (g i).Valid = 0) :
    AllocateRegion.scan g (lo ++ i :: hi) =
      (Function.update g i { g i with Valid := 1 }, some i) := by
  induction lo with
  | nil => simp [AllocateRegion.scan, hi0]
  | cons j rest ih =>
    have hj := hlo j (List.mem_cons_self _ _)
    simp only [List.cons_append, AllocateRegion.scan, hj, if_false]
    exact ih (fun k hk => hlo k (List.mem_cons_of_mem _ hk))

/-- With every slot live, `AllocateRegion` returns `NULL` and the table as it was. -/
theorem AllocateRegion_full (g : Table) (h : ∀ i, (g i).Valid ≠ 0) :
    AllocateRegion g = (g, none) :=
  AllocateRegion.scan_all_live g _ (fun i _ => h i)

/-- The lowest free slot is the one `AllocateRegion` marks and returns. -/
theorem AllocateRegion_first_free (g : Table) (i : Slot) (hi0 : (g i).Valid = 0)
    (hlo : ∀ j, j < i → (g j).Valid ≠ 0) :
    AllocateRegion g = (Function.update g i { g i with Valid := 1 }, some i) := by
  obtain ⟨lo, hi, hsplit, hlt, _, _⟩ := slotIndices_split i
  unfold AllocateRegion
  rw [hsplit]
  exact AllocateRegion.scan_first_free g lo hi i (fun j hj => hlo j (hlt j hj)) hi0

/-- Among the free slots there is one of lowest index. -/
theorem exists_first_free (g : Table) (h : ∃ i, (g i).Valid = 0) :
    ∃ i, (g i).Valid = 0 ∧ ∀ j, j < i → (g j).Valid ≠ 0 := by
  obtain ⟨i, hi⟩ := h
  obtain ⟨m, hm, hmin⟩ :=
    (wellFounded_lt : WellFounded (fun a b : Slot => a < b)).has_min
      {k | (g k).Valid = 0} ⟨i, hi⟩
  exact ⟨m, hm, fun j hj hj0 => hmin j hj0 hj⟩

/-- The two possible outcomes of `AllocateRegion`. -/
theorem AllocateRegion_cases (g : Table) :
    ((∀ i, (g i).Valid ≠ 0) ∧ AllocateRegion g = (g, none)) ∨
    (∃ i, (g i).Valid = 0 ∧ (∀ j, j < i → (g j).Valid ≠ 0) ∧
      AllocateRegion g = (Function.update g i { g i with Valid := 1 }, some i)) := by
  by_cases h : ∃ i, (g i).Valid = 0
  · obtain ⟨i, hi0, hlo⟩ := exists_first_free g h
    exact Or.inr ⟨i, hi0, hlo, AllocateRegion_first_free g i hi0 hlo⟩
  · have h2 : ∀ i, (g i).Valid ≠ 0 := fun i hi => h ⟨i, hi⟩
    exact Or.inl ⟨h2, AllocateRegion_full g h2⟩

/-! ## `StartTrackingRegion` and `StopTrackingRegion` -/

/-- Registration with a full table. -/
theorem StartTrackingRegion_full (address size action osHandle : Nat) (s : State)
    (h : ∀ i, (s.g_regions i).Valid ≠ 0) :
    StartTrackingRegion address size action osHandle s = (s, none) := by
  unfold StartTrackingRegion
  rw [AllocateRegion_full _ h]

/-- Registration when the lowest free slot is `i` and the hook is granted. -/
theorem StartTrackingRegion_granted (address size action osHandle : Nat) (s : State) (i : Slot)
    (hi0 : (s.g_regions i).Valid = 0) (hlo : ∀ j, j < i → (s.g_regions j).Valid ≠ 0)
    (hos : osHandle ≠ 0) :
    StartTrackingRegion address size action osHandle s =
      (⟨Function.update s.g_regions i ⟨1, size, address, osHandle, action⟩,
        osHandle :: s.handlers⟩, some i) := by
  unfold StartTrackingRegion
  rw [AllocateRegion_first_free _ i hi0 hlo]
  simp [AddVectoredExceptionHandler, hos]

/-- Registration when the lowest free slot is `i` and the hook is refused. -/
theorem StartTrackingRegion_refused (address size action : Nat) (s : State) (i : Slot)
    (hi0 : (s.g_regions i).Valid = 0) (hlo : ∀ j, j < i → (s.g_regions j).Valid ≠ 0) :
    StartTrackingRegion address size action 0 s = (s, none) := by
  unfold StartTrackingRegion
  rw [AllocateRegion_first_free _ i hi0 hlo]
  simp only [AddVectoredExceptionHandler, FreeRegion, if_true]
  congr 1
  cases s with
  | mk g hs =>
    simp only [State.mk.injEq, and_true]
    funext j
    by_cases hj : j = i
    · subst hj
      simp only [Function.update_same]
      cases hgi : g j with
      | mk v sz ad ha ac => simp only [hgi] at hi0; simp [hi0]
    · simp [Function.update_noteq hj]

/-! ## The range test and the offset -/

theorem C_ULONG_of_lt {x : Nat} (h : x < 2 ^ 64) : C_ULONG x = x :=
  Nat.mod_eq_of_lt h

/-- On 64-bit fields the test of the handler is: live, in the half-open range, and
the end of the range below `2 ^ 64`. -/
theorem hits_iff (rg : TrackedRegion) (a : Nat) (hA : rg.Address < 2 ^ 64)
    (hS : rg.Size < 2 ^ 64) (ha : a < 2 ^ 64) :
    hits rg a = true ↔ rg.live ∧ rg.contains a ∧ rg.Address + rg.Size < 2 ^ 64 := by
  unfold hits TrackedRegion.live TrackedRegion.contains
  rw [C_ULONG_of_lt hA, C_ULONG_of_lt hS, C_ULONG_of_lt ha]
  simp only [Bool.and_eq_true, decide_eq_true_eq]
  constructor
  · rintro ⟨⟨hv, hle⟩, hgt⟩
    have hlt : rg.Address + rg.Size < 2 ^ 64 := by
      by_contra hge
      have hsub : (rg.Address + rg.Size) % 2 ^ 64 = rg.Address + rg.Size - 2 ^ 64 := by
        rw [Nat.mod_eq_sub_mod (Nat.le_of_not_lt hge)]
        exact Nat.mod_eq_of_lt (by omega)
      omega
    rw [Nat.mod_eq_of_lt hlt] at hgt
    exact ⟨hv, ⟨hle, hgt⟩, hlt⟩
  · rintro ⟨hv, ⟨hle, hgt⟩, hlt⟩
    rw [Nat.mod_eq_of_lt hlt]
    exact ⟨⟨hv, hle⟩, hgt⟩

/-- Without wrap-around the offset is the plain difference. -/
theorem faultOffset_eq (rg : TrackedRegion) (a : Nat) (hle : rg.Address ≤ a) (ha : a < 2 ^ 64) :
    faultOffset rg a = a - rg.Address := by
  unfold faultOffset
  rw [C_ULONG_of_lt ha, C_ULONG_of_lt (lt_of_le_of_lt hle ha)]
  have h : a + 2 ^ 64 - rg.Address = (a - rg.Address) + 2 ^ 64 := by omega
  rw [h, Nat.add_mod_right]
  exact Nat.mod_eq_of_lt (by omega)

/-- Small access-kind values pass through the conversion to `int` unchanged. -/
theorem toInt32_of_lt {x : Nat} (h : x < 2 ^ 31) : toInt32 x = (x : Int) := by
  unfold toInt32
  have h1 : x % 2 ^ 32 = x := Nat.mod_eq_of_lt (by omega)
  rw [h1, if_pos h]

/-! ## The scan loop of the handler -/

theorem ExceptionHandler.scan_skip (call : Resolvers) (g : Table) (a info0 : Nat)
    (lo rest : List Slot) (h : ∀ j ∈ lo, hits (g j) a = false) :
    ExceptionHandler.scan call g a info0 (lo ++ rest) =
      ExceptionHandler.scan call g a info0 rest := by
  induction lo with
  | nil => rfl
  | cons j lo ih =>
    have hj := h j (List.mem_cons_self _ _)
    simp only [List.cons_append, ExceptionHandler.scan, hj, Bool.false_eq_true, if_false]
    exact ih (fun k hk => h k (List.mem_cons_of_mem _ hk))

theorem ExceptionHandler.scan_no_hit (call : Resolvers) (g : Table) (a info0 : Nat)
    (l : List Slot) (h : ∀ j ∈ l, hits (g j) a = false) :
    ExceptionHandler.scan call g a info0 l = (EXCEPTION_CONTINUE_SEARCH, []) := by
  have := ExceptionHandler.scan_skip call g a info0 l [] h
  simpa [ExceptionHandler.scan] using this

theorem ExceptionHandler.scan_hit_resolved (call : Resolvers) (g : Table) (a info0 : Nat)
    (i : Slot) (rest : List Slot) (hi : hits (g i) a = true)
    (hc : call (g i).Action (faultOffset (g i) a) (toInt32 info0) ≠ 0) :
    ExceptionHandler.scan call g a info0 (i :: rest) =
      (EXCEPTION_CONTINUE_EXECUTION, [invocationOf g a info0 i]) := by
  simp only [ExceptionHandler.scan, hi, if_true, invocationOf]
  rw [if_pos hc]

theorem ExceptionHandler.scan_hit_declined (call : Resolvers) (g : Table) (a info0 : Nat)
    (i : Slot) (rest : List Slot) (hi : hits (g i) a = true)
    (hc : call (g i).Action (faultOffset (g i) a) (toInt32 info0) = 0) :
    ExceptionHandler.scan call g a info0 (i :: rest) =
      ((ExceptionHandler.scan call g a info0 rest).1,
        invocationOf g a info0 i :: (ExceptionHandler.scan call g a info0 rest).2) := by
  simp only [ExceptionHandler.scan, hi, if_true, invocationOf]
  rw [if_neg (by simpa using hc)]

/-- Every call in the trace of a scan is the invocation of a slot of the list
that passed the range test. -/
theorem ExceptionHandler.scan_mem (call : Resolvers) (g : Table) (a info0 : Nat)
    (l : List Slot) (inv : Invocation)
    (h : inv ∈ (ExceptionHandler.scan call g a info0 l).2) :
    inv.slot ∈ l ∧ hits (g inv.slot) a = true ∧ inv = invocationOf g a info0 inv.slot := by
  induction l with
  | nil => simp [ExceptionHandler.scan] at h
  | cons i rest ih =>
    by_cases hi : hits (g i) a = true
    · by_cases hc : call (g i).Action (faultOffset (g i) a) (toInt32 info0) = 0
      · rw [ExceptionHandler.scan_hit_declined call g a info0 i rest hi hc] at h
        rcases List.mem_cons.mp h with h | h
        · subst h
          exact ⟨List.mem_cons_self _ _, hi, rfl⟩
        · obtain ⟨h1, h2, h3⟩ := ih h
          exact ⟨List.mem_cons_of_mem _ h1, h2, h3⟩
      · rw [ExceptionHandler.scan_hit_resolved call g a info0 i rest hi hc] at h
        rw [List.mem_singleton] at h
        subst h
        exact ⟨List.mem_cons_self _ _, hi, rfl⟩
    · have hi2 : hits (g i) a = false := by simpa using hi
      have := ExceptionHandler.scan_skip call g a info0 [i] rest
        (fun j hj => by rw [List.mem_singleton.mp hj]; exact hi2)
      rw [List.singleton_append] at this
      rw [this] at h
      obtain ⟨h1, h2, h3⟩ := ih h
      exact ⟨List.mem_cons_of_mem _ h1, h2, h3⟩

/-- The handler on an access violation is the scan of all slots. -/
theorem ExceptionHandler_fault (call : Resolvers) (g : Table) (rec : EXCEPTION_RECORD)
    (a : Nat) (h : rec.isFaultAt a) :
    ExceptionHandler call g rec =
      ExceptionHandler.scan call g a rec.ExceptionInformation0 slotIndices := by
  unfold ExceptionHandler
  rw [if_neg (by simpa using h.1), h.2]

/-- Every call made by the handler is the invocation of a slot that passed the
range test. -/
theorem ExceptionHandler_mem (call : Resolvers) (g : Table) (rec : EXCEPTION_RECORD)
    (inv : Invocation) (h : inv ∈ (ExceptionHandler call g rec).2) :
    hits (g inv.slot) rec.ExceptionInformation1 = true ∧
      inv = invocationOf g rec.ExceptionInformation1 rec.ExceptionInformation0 inv.slot := by
  unfold ExceptionHandler at h
  by_cases hc : rec.ExceptionCode ≠ EXCEPTION_ACCESS_VIOLATION
  · rw [if_pos hc] at h
    simp at h
  · rw [if_neg hc] at h
    exact (ExceptionHandler.scan_mem call g _ _ _ inv h).2

/-- With the first hit at slot `i`, the handler behaves as the scan from `i` on. -/
theorem ExceptionHandler_first_hit (call : Resolvers) (g : Table) (rec : EXCEPTION_RECORD)
    (a : Nat) (h : rec.isFaultAt a) (i : Slot) (hlo : ∀ j, j < i → hits (g j) a = false) :
    ∃ hi : List Slot, (∀ j ∈ hi, i < j) ∧
      ExceptionHandler call g rec =
        ExceptionHandler.scan call g a rec.ExceptionInformation0 (i :: hi) := by
  obtain ⟨lo, hi, hsplit, hlt, hgt, _⟩ := slotIndices_split i
  refine ⟨hi, hgt, ?_⟩
  rw [ExceptionHandler_fault call g rec a h, hsplit]
  exact ExceptionHandler.scan_skip call g a _ lo _ (fun j hj => hlo j (hlt j hj))

/-- The decision of a scan is one of the two filter results. -/
theorem ExceptionHandler.scan_decision (call : Resolvers) (g : Table) (a info0 : Nat)
    (l : List Slot) :
    (ExceptionHandler.scan call g a info0 l).1 = EXCEPTION_CONTINUE_SEARCH ∨
      (ExceptionHandler.scan call g a info0 l).1 = EXCEPTION_CONTINUE_EXECUTION := by
  induction l with
  | nil => exact Or.inl rfl
  | cons i rest ih =>
    by_cases hi : hits (g i) a = true
    · by_cases hc : call (g i).Action (faultOffset (g i) a) (toInt32 info0) = 0
      · rw [ExceptionHandler.scan_hit_declined call g a info0 i rest hi hc]
        exact ih
      · rw [ExceptionHandler.scan_hit_resolved call g a info0 i rest hi hc]
        exact Or.inr rfl
    · have hi2 : hits (g i) a = false := by simpa using hi
      have := ExceptionHandler.scan_skip call g a info0 [i] rest
        (fun j hj => by rw [List.mem_singleton.mp hj]; exact hi2)
      rw [List.singleton_append] at this
      rw [this]
      exact ih

/-- A scan over two lists in a row: a resume decision in the first list ends the
scan there, otherwise the second list is scanned after the first. -/
theorem ExceptionHandler.scan_append (call : Resolvers) (g : Table) (a info0 : Nat)
    (l1 l2 : List Slot) :
    ExceptionHandler.scan call g a info0 (l1 ++ l2) =
      if (ExceptionHandler.scan call g a info0 l1).1 = EXCEPTION_CONTINUE_EXECUTION then
        ExceptionHandler.scan call g a info0 l1
      else
        ((ExceptionHandler.scan call g a info0 l2).1,
          (ExceptionHandler.scan call g a info0 l1).2 ++
            (ExceptionHandler.scan call g a info0 l2).2) := by
  induction l1 with
  | nil => simp [ExceptionHandler.scan, EXCEPTION_CONTINUE_SEARCH, EXCEPTION_CONTINUE_EXECUTION]
  | cons i rest ih =>
    by_cases hi : hits (g i) a = true
    · by_cases hc : call (g i).Action (faultOffset (g i) a) (toInt32 info0) = 0
      · rw [List.cons_append, ExceptionHandler.scan_hit_declined call g a info0 i _ hi hc,
          ExceptionHandler.scan_hit_declined call g a info0 i _ hi hc, ih]
        by_cases hd : (ExceptionHandler.scan call g a info0 rest).1 = EXCEPTION_CONTINUE_EXECUTION
        · simp [hd]
        · simp [hd]
      · rw [List.cons_append, ExceptionHandler.scan_hit_resolved call g a info0 i _ hi hc,
          ExceptionHandler.scan_hit_resolved call g a info0 i _ hi hc]
        simp
    · have hi2 : hits (g i) a = false := by simpa using hi
      have h1 := ExceptionHandler.scan_skip call g a info0 [i] (rest ++ l2)
        (fun j hj => by rw [List.mem_singleton.mp hj]; exact hi2)
      have h2 := ExceptionHandler.scan_skip call g a info0 [i] rest
        (fun j hj => by rw [List.mem_singleton.mp hj]; exact hi2)
      rw [List.singleton_append] at h1 h2
      rw [List.cons_append, h1, h2, ih]

/-- A scan that made no call declines. -/
theorem ExceptionHandler.scan_nil_trace (call : Resolvers) (g : Table) (a info0 : Nat)
    (l : List Slot) (h : (ExceptionHandler.scan call g a info0 l).2 = []) :
    (ExceptionHandler.scan call g a info0 l).1 = EXCEPTION_CONTINUE_SEARCH := by
  induction l with
  | nil => rfl
  | cons i rest ih =>
    by_cases hi : hits (g i) a = true
    · by_cases hc : call (g i).Action (faultOffset (g i) a) (toInt32 info0) = 0
      · rw [ExceptionHandler.scan_hit_declined call g a info0 i rest hi hc] at h
        simp at h
      · rw [ExceptionHandler.scan_hit_resolved call g a info0 i rest hi hc] at h
        simp at h
    · have hi2 : hits (g i) a = false := by simpa using hi
      have := ExceptionHandler.scan_skip call g a info0 [i] rest
        (fun j hj => by rw [List.mem_singleton.mp hj]; exact hi2)
      rw [List.singleton_append] at this
      rw [this] at h ⊢
      exact ih h

/-- A handler call that made no resolver call declines. -/
theorem ExceptionHandler_nil_trace (call : Resolvers) (g : Table) (rec : EXCEPTION_RECORD)
    (h : (ExceptionHandler call g rec).2 = []) :
    (ExceptionHandler call g rec).1 = EXCEPTION_CONTINUE_SEARCH := by
  unfold ExceptionHandler at h ⊢
  by_cases hc : rec.ExceptionCode ≠ EXCEPTION_ACCESS_VIOLATION
  · rw [if_pos hc]
  · rw [if_neg hc] at h ⊢
    exact ExceptionHandler.scan_nil_trace call g _ _ _ h

/-! ## Frame facts of the exported operations -/

/-- The outcomes of `StartTrackingRegion`: failure leaves the state as it was;
success fills the lowest free slot and adds the granted handle. -/
theorem StartTrackingRegion_cases (address size action osHandle : Nat) (s : State) :
    StartTrackingRegion address size action osHandle s = (s, none) ∨
    (∃ i, (s.g_regions i).Valid = 0 ∧ (∀ j, j < i → (s.g_regions j).Valid ≠ 0) ∧
      osHandle ≠ 0 ∧
      StartTrackingRegion address size action osHandle s =
        (⟨Function.update s.g_regions i ⟨1, size, address, osHandle, action⟩,
          osHandle :: s.handlers⟩, some i)) := by
  rcases AllocateRegion_cases s.g_regions with ⟨hfull, _⟩ | ⟨i, hi0, hlo, _⟩
  · exact Or.inl (StartTrackingRegion_full address size action osHandle s hfull)
  · by_cases hos : osHandle = 0
    · subst hos
      exact Or.inl (StartTrackingRegion_refused address size action s i hi0 hlo)
    · exact Or.inr ⟨i, hi0, hlo, hos,
        StartTrackingRegion_granted address size action osHandle s i hi0 hlo hos⟩

/-- A call leaves a live slot as it is, unless it is the deregistration of
that slot. -/
theorem step_live_slot (s : State) (op : Op) (i : Slot) (hlive : (s.g_regions i).Valid ≠ 0)
    (hop : op ≠ Op.stop i) : (step s op).1.g_regions i = s.g_regions i := by
  cases op with
  | stop region =>
    have hne : i ≠ region := fun h => hop (by rw [h])
    simp [step, StopTrackingRegion, FreeRegion, Function.update_noteq hne]
  | start address size action osHandle =>
    simp only [step]
    rcases StartTrackingRegion_cases address size action osHandle s with h | ⟨k, hk0, _, _, h⟩
    · rw [h]
    · rw [h]
      have hne : i ≠ k := fun hik => hlive (by rw [hik]; exact hk0)
      simp [Function.update_noteq hne]

/-- A sequence of calls leaves a live slot as it is, unless it deregisters it. -/
theorem run_live_slot (ops : List Op) (s : State) (i : Slot)
    (hlive : (s.g_regions i).Valid ≠ 0) (hops : ∀ op ∈ ops, op ≠ Op.stop i) :
    (run s ops).1.g_regions i = s.g_regions i := by
  induction ops generalizing s with
  | nil => rfl
  | cons op ops ih =>
    have h1 := step_live_slot s op i hlive (hops op (List.mem_cons_self _ _))
    simp only [run]
    rw [ih (step s op).1 (by rw [h1]; exact hlive)
      (fun o ho => hops o (List.mem_cons_of_mem _ ho)), h1]

/-- A call that does not return slot `i` leaves a free slot `i` free. -/
theorem step_free_slot (s : State) (op : Op) (i : Slot) (hfree : (s.g_regions i).Valid = 0)
    (hres : (step s op).2 ≠ some i) : ((step s op).1.g_regions i).Valid = 0 := by
  cases op with
  | stop region =>
    by_cases hir : i = region
    · subst hir
      simp [step, StopTrackingRegion, FreeRegion]
    · simp [step, StopTrackingRegion, FreeRegion, Function.update_noteq hir, hfree]
  | start address size action osHandle =>
    simp only [step] at hres ⊢
    rcases StartTrackingRegion_cases address size action osHandle s with h | ⟨k, _, _, _, h⟩
    · rw [h]; exact hfree
    · rw [h] at hres ⊢
      have hne : i ≠ k := fun hik => hres (by rw [hik])
      simp [Function.update_noteq hne, hfree]

/-- A sequence of calls none of which returns slot `i` leaves a free slot `i` free. -/
theorem run_free_slot (ops : List Op) (s : State) (i : Slot)
    (hfree : (s.g_regions i).Valid = 0) (hres : some i ∉ (run s ops).2) :
    ((run s ops).1.g_regions i).Valid = 0 := by
  induction ops generalizing s with
  | nil => exact hfree
  | cons op ops ih =>
    simp only [run, List.mem_cons, not_or] at hres ⊢
    exact ih (step s op).1 (step_free_slot s op i hfree (fun h => hres.1 h.symm)) hres.2

/-- A well-formed call keeps the table well-formed. -/
theorem step_wellFormed (s : State) (op : Op) (hwf : wellFormed s.g_regions)
    (hop : op.wellFormed) : wellFormed (step s op).1.g_regions := by
  cases op with
  | stop region =>
    intro i
    by_cases hir : i = region
    · subst hir
      simpa [step, StopTrackingRegion, FreeRegion] using hwf i
    · simpa [step, StopTrackingRegion, FreeRegion, Function.update_noteq hir] using hwf i
  | start address size action osHandle =>
    simp only [step]
    rcases StartTrackingRegion_cases address size action osHandle s with h | ⟨k, _, _, _, h⟩
    · rw [h]; exact hwf
    · rw [h]
      intro i
      by_cases hik : i = k
      · subst hik
        simpa using hop
      · simpa [Function.update_noteq hik] using hwf i

/-- Well-formed calls keep the table well-formed. -/
theorem run_wellFormed (ops : List Op) (s : State) (hwf : wellFormed s.g_regions)
    (hops : ∀ op ∈ ops, op.wellFormed) : wellFormed (run s ops).1.g_regions := by
  induction ops generalizing s with
  | nil => exact hwf
  | cons op ops ih =>
    simp only [run]
    exact ih (step s op).1 (step_wellFormed s op hwf (hops op (List.mem_cons_self _ _)))
      (fun o ho => hops o (List.mem_cons_of_mem _ ho))

/-! ## Dispatch to the lowest containing slot -/

/-- On a well-formed table a slot passes the range test only if it is live and
its range contains the address. -/
theorem hits_live_contains (g : Table) (a : Nat) (hwf : wellFormed g) (ha : a < 2 ^ 64)
    (j : Slot) (h : hits (g j) a = true) : (g j).live ∧ (g j).contains a := by
  obtain ⟨h1, h2, _⟩ := (hits_iff (g j) a (hwf j).1 (hwf j).2 ha).mp h
  exact ⟨h1, h2⟩

/-- If no live slot below `r` contains the address, no slot below `r` passes
the range test. -/
theorem lower_slots_miss (g : Table) (a : Nat) (hwf : wellFormed g) (ha : a < 2 ^ 64)
    (r : Slot) (hlow : ∀ j, j < r → ¬((g j).live ∧ (g j).contains a)) :
    ∀ j, j < r → hits (g j) a = false := by
  intro j hj
  by_contra hne
  exact hlow j hj (hits_live_contains g a hwf ha j (by simpa using hne))

/-- The first call of the handler goes to the lowest slot passing the range
test, and no call goes to a slot below it. -/
theorem handler_first_hit_first (call : Resolvers) (g : Table) (rec : EXCEPTION_RECORD)
    (a : Nat) (r : Slot) (hrec : rec.isFaultAt a) (hhit : hits (g r) a = true)
    (hmiss : ∀ j, j < r → hits (g j) a = false) :
    (∃ rest, (ExceptionHandler call g rec).2 =
      invocationOf g a rec.ExceptionInformation0 r :: rest) ∧
    (∀ inv ∈ (ExceptionHandler call g rec).2, ¬ inv.slot < r) := by
  obtain ⟨hi, hgt, heq⟩ := ExceptionHandler_first_hit call g rec a hrec r hmiss
  constructor
  · rw [heq]
    by_cases hc : call (g r).Action (faultOffset (g r) a) (toInt32 rec.ExceptionInformation0) = 0
    · rw [ExceptionHandler.scan_hit_declined call g a _ r hi hhit hc]
      exact ⟨(ExceptionHandler.scan call g a rec.ExceptionInformation0 hi).2, rfl⟩
    · rw [ExceptionHandler.scan_hit_resolved call g a _ r hi hhit hc]
      exact ⟨[], rfl⟩
  · intro inv hinv
    rw [heq] at hinv
    obtain ⟨hmem, _, _⟩ := ExceptionHandler.scan_mem call g a _ _ inv hinv
    rcases List.mem_cons.mp hmem with h | h
    · rw [h]; exact lt_irrefl r
    · exact not_lt_of_gt (hgt _ h)

/-- When the lowest slot passing the range test has a resolver that returns
nonzero, the handler resumes after that single call. -/
theorem handler_first_hit_resolved (call : Resolvers) (g : Table) (rec : EXCEPTION_RECORD)
    (a : Nat) (r : Slot) (hrec : rec.isFaultAt a) (hhit : hits (g r) a = true)
    (hmiss : ∀ j, j < r → hits (g j) a = false)
    (hc : call (g r).Action (faultOffset (g r) a) (toInt32 rec.ExceptionInformation0) ≠ 0) :
    ExceptionHandler call g rec =
      (EXCEPTION_CONTINUE_EXECUTION, [invocationOf g a rec.ExceptionInformation0 r]) := by
  obtain ⟨hi, _, heq⟩ := ExceptionHandler_first_hit call g rec a hrec r hmiss
  rw [heq, ExceptionHandler.scan_hit_resolved call g a _ r hi hhit hc]

/-- When a slot passes the range test and its resolver returns nonzero, the
handler makes no call for any slot of higher index. -/
theorem handler_resolved_blocks_higher (call : Resolvers) (g : Table) (rec : EXCEPTION_RECORD)
    (a : Nat) (i : Slot) (hrec : rec.isFaultAt a) (hhit : hits (g i) a = true)
    (hc : call (g i).Action (faultOffset (g i) a) (toInt32 rec.ExceptionInformation0) ≠ 0) :
    ∀ inv ∈ (ExceptionHandler call g rec).2, inv.slot ≤ i := by
  obtain ⟨lo, hi, hsplit, hlt, _, _⟩ := slotIndices_split i
  intro inv hinv
  rw [ExceptionHandler_fault call g rec a hrec, hsplit, ExceptionHandler.scan_append,
    ExceptionHandler.scan_hit_resolved call g a _ i hi hhit hc] at hinv
  by_cases hd : (ExceptionHandler.scan call g a rec.ExceptionInformation0 lo).1 =
      EXCEPTION_CONTINUE_EXECUTION
  · rw [if_pos hd] at hinv
    exact le_of_lt (hlt _ (ExceptionHandler.scan_mem call g a _ lo inv hinv).1)
  · rw [if_neg hd] at hinv
    rcases List.mem_append.mp hinv with h | h
    · exact le_of_lt (hlt _ (ExceptionHandler.scan_mem call g a _ lo inv h).1)
    · rw [List.mem_singleton.mp h]
      exact le_refl i

/-! ## Registration order and slot order -/

/-- A successful registration: the returned slot was the lowest free one, the
hook was granted, and the new table holds the arguments in that slot. -/
theorem StartTrackingRegion_some (address size action osHandle : Nat) (s s1 : State) (i : Slot)
    (h : StartTrackingRegion address size action osHandle s = (s1, some i)) :
    (s.g_regions i).Valid = 0 ∧ (∀ j, j < i → (s.g_regions j).Valid ≠ 0) ∧ osHandle ≠ 0 ∧
      s1.g_regions = Function.update s.g_regions i ⟨1, size, address, osHandle, action⟩ := by
  rcases StartTrackingRegion_cases address size action osHandle s with h0 | ⟨k, hk0, hlo, hos, hk⟩
  · rw [h0] at h
    exact absurd (congrArg Prod.snd h) (by simp)
  · rw [hk] at h
    have hki : k = i := Option.some.inj (congrArg Prod.snd h)
    subst hki
    have hs1 := congrArg Prod.fst h
    simp only at hs1
    exact ⟨hk0, hlo, hos, by rw [← hs1]⟩

/-- Registrations alone never touch a live slot. -/
theorem run_starts_live_slot (ops : List Op) (s : State) (i : Slot)
    (hlive : (s.g_regions i).Valid ≠ 0) (hops : ∀ op ∈ ops, op.isStart) :
    (run s ops).1.g_regions i = s.g_regions i := by
  apply run_live_slot ops s i hlive
  intro op hop heq
  have := hops op hop
  rw [heq] at this
  exact this

/-! ## Filling the empty table -/

theorem filledTo_emptyTable : filledTo 0 emptyTable := by
  intro i
  exact ⟨fun h => absurd h (Nat.not_lt_zero _), fun _ => rfl⟩

/-- A granted registration into a table filled up to `k < 32` takes slot `k`. -/
theorem StartTrackingRegion_filledTo (address size action osHandle : Nat) (s : State) (k : Nat)
    (hk : k < MAX_TRACKED_REGIONS) (hf : filledTo k s.g_regions) (hos : osHandle ≠ 0) :
    (StartTrackingRegion address size action osHandle s).2 = some ⟨k, hk⟩ ∧
      filledTo (k + 1) (StartTrackingRegion address size action osHandle s).1.g_regions := by
  have hi0 : (s.g_regions ⟨k, hk⟩).Valid = 0 := (hf ⟨k, hk⟩).2 (le_refl _)
  have hlo : ∀ j, j < (⟨k, hk⟩ : Slot) → (s.g_regions j).Valid ≠ 0 := fun j hj => (hf j).1 hj
  rw [StartTrackingRegion_granted address size action osHandle s ⟨k, hk⟩ hi0 hlo hos]
  refine ⟨rfl, ?_⟩
  intro i
  by_cases hik : i = ⟨k, hk⟩
  · subst hik
    simp
  · have hne : i.val ≠ k := fun h => hik (Fin.ext h)
    simp only [Function.update_noteq hik]
    exact ⟨fun h => (hf i).1 (by omega), fun h => (hf i).2 (by omega)⟩

/-- A table filled up to `32` has no free slot. -/
theorem filledTo_full (g : Table) (hf : filledTo MAX_TRACKED_REGIONS g) (i : Slot) :
    (g i).Valid ≠ 0 :=
  (hf i).1 i.isLt

/-- Granted registrations into a table filled up to `k` return the slots
`k, k + 1, ...` in turn, as long as they fit. -/
theorem run_granted_starts (ops : List Op) (s : State) (k : Nat)
    (hf : filledTo k s.g_regions) (hstart : ∀ op ∈ ops, op.isGrantedStart)
    (hlen : k + ops.length ≤ MAX_TRACKED_REGIONS) :
    (run s ops).2.map (Option.map Fin.val) = (List.range' k ops.length).map some ∧
      filledTo (k + ops.length) (run s ops).1.g_regions := by
  induction ops generalizing s k with
  | nil => exact ⟨rfl, hf⟩
  | cons op ops ih =>
    have hop := hstart op (List.mem_cons_self _ _)
    cases op with
    | stop region => exact absurd hop (by simp [Op.isGrantedStart])
    | start address size action osHandle =>
      have hos : osHandle ≠ 0 := hop
      have hlen2 : k + (ops.length + 1) ≤ MAX_TRACKED_REGIONS := by simpa using hlen
      have hk : k < MAX_TRACKED_REGIONS := by omega
      obtain ⟨h1, h2⟩ := StartTrackingRegion_filledTo address size action osHandle s k hk hf hos
      obtain ⟨h3, h4⟩ := ih (StartTrackingRegion address size action osHandle s).1 (k + 1) h2
        (fun o ho => hstart o (List.mem_cons_of_mem _ ho)) (by omega)
      constructor
      · simp only [run, step, List.map_cons, h1, h3, List.length_cons, List.range'_succ]
        rfl
      · simp only [run, step, List.length_cons]
        rw [show k + (ops.length + 1) = k + 1 + ops.length by omega]
        exact h4

/-! ## The claims -/

/-- C1: starting from the empty table, with every hook installation granted, a
sequence of at most 32 `StartTrackingRegion` calls without any
`StopTrackingRegion` succeeds at every call and returns pairwise distinct
handles; after 32 such calls a further call returns `NULL`, whatever the
operating system would answer. -/
theorem C1_registrations_up_to_capacity (ops : List Op)
    (hstart : ∀ op ∈ ops, op.isGrantedStart) (hlen : ops.length ≤ MAX_TRACKED_REGIONS) :
    (run initState ops).2.length = ops.length ∧
    (∀ r ∈ (run initState ops).2, r ≠ none) ∧
    (run initState ops).2.Nodup ∧
    (ops.length = MAX_TRACKED_REGIONS → ∀ address size action osHandle,
      (StartTrackingRegion address size action osHandle (run initState ops).1).2 = none) := by
  obtain ⟨h1, h2⟩ := run_granted_starts ops initState 0 filledTo_emptyTable hstart
    (by simpa using hlen)
  refine ⟨?_, ?_, ?_, ?_⟩
  · have := congrArg List.length h1
    simpa using this
  · intro r hr hnone
    subst hnone
    have hm : (none : Option Nat) ∈ (run initState ops).2.map (Option.map Fin.val) :=
      List.mem_map.mpr ⟨none, hr, rfl⟩
    rw [h1] at hm
    simp at hm
  · apply List.Nodup.of_map (Option.map Fin.val)
    rw [h1]
    exact (List.nodup_range' _ _).map (Option.some_injective _)
  · intro hfull address size action osHandle
    rw [hfull] at h2
    rw [StartTrackingRegion_full address size action osHandle _
      (filledTo_full _ (by simpa using h2))]

/-- C1 at 32 registrations of the same range: all succeed with distinct handles
and the 33rd fails. -/
theorem C1_registrations_up_to_capacity_witness :
    (∀ op ∈ List.replicate 32 (Op.start 0x1000 0x2000 7 99), op.isGrantedStart) ∧
    (run initState (List.replicate 32 (Op.start 0x1000 0x2000 7 99))).2.Nodup ∧
    (StartTrackingRegion 0x5000 0x1000 7 99
      (run initState (List.replicate 32 (Op.start 0x1000 0x2000 7 99))).1).2 = none :=
  have h := C1_registrations_up_to_capacity (List.replicate 32 (Op.start 0x1000 0x2000 7 99))
    (by decide) (by decide)
  ⟨by decide, h.2.2.1, h.2.2.2 (by decide) 0x5000 0x1000 7 99⟩

/-- C2 as stated fails when the end of the range is exactly `2 ^ 64`: slot 0
tracks `[2 ^ 64 - 0x1000, 2 ^ 64)`, is live, is the lowest slot containing the
fault address `2 ^ 64 - 0x800` and its sum does not exceed `2 ^ 64`, yet the
handler calls no resolver and declines. -/
theorem C2_counterexample :
    wellFormed lastPageTable ∧
    (lastPageTable 0).live ∧
    (lastPageTable 0).contains 0xFFFFFFFFFFFFF800 ∧
    (lastPageTable 0).Address + (lastPageTable 0).Size ≤ 2 ^ 64 ∧
    (∀ j : Slot, j < 0 → ¬((lastPageTable j).live ∧ (lastPageTable j).contains 0xFFFFFFFFFFFFF800)) ∧
    ExceptionHandler alwaysTrue lastPageTable ⟨EXCEPTION_ACCESS_VIOLATION, 1, 0xFFFFFFFFFFFFF800⟩ =
      (EXCEPTION_CONTINUE_SEARCH, []) := by
  decide

/-- C2, amended: for every table and every access violation at `a`, if slot `r`
is the lowest-index live slot whose range `[Address, Address + Size)` contains
`a`, and the end of its range is below `2 ^ 64`, then the first resolver call
of the handler is the one of slot `r`, with first argument `a - Address` and
second argument the access-kind entry of the record converted to `int` (the
entry itself when it is below `2 ^ 31`), and no call is made for a slot of
lower index. -/
theorem C2_lowest_containing_slot_first (call : Resolvers) (g : Table) (rec : EXCEPTION_RECORD)
    (a : Nat) (r : Slot) (hwf : wellFormed g) (hrec : rec.isFaultAt a)
    (hlive : (g r).live) (hin : (g r).contains a)
    (hend : (g r).Address + (g r).Size < 2 ^ 64)
    (hlow : ∀ j, j < r → ¬((g j).live ∧ (g j).contains a)) :
    (∃ rest, (ExceptionHandler call g rec).2 =
      ⟨r, (g r).Action, a - (g r).Address, toInt32 rec.ExceptionInformation0⟩ :: rest) ∧
    (∀ inv ∈ (ExceptionHandler call g rec).2, ¬ inv.slot < r) ∧
    (rec.ExceptionInformation0 < 2 ^ 31 →
      toInt32 rec.ExceptionInformation0 = (rec.ExceptionInformation0 : Int)) := by
  have ha : a < 2 ^ 64 := lt_trans hin.2 hend
  have hhit : hits (g r) a = true :=
    (hits_iff (g r) a (hwf r).1 (hwf r).2 ha).mpr ⟨hlive, hin, hend⟩
  have hmiss := lower_slots_miss g a hwf ha r hlow
  have hoff : faultOffset (g r) a = a - (g r).Address := faultOffset_eq (g r) a hin.1 ha
  obtain ⟨h1, h2⟩ := handler_first_hit_first call g rec a r hrec hhit hmiss
  simp only [invocationOf, hoff] at h1
  exact ⟨h1, h2, fun h => toInt32_of_lt h⟩

/-- C2 (amended) on two overlapping regions in slots 2 and 5 and a write fault
at `0x1800`: the first call goes to slot 2 with offset `0x800` and kind `1`. -/
theorem C2_lowest_containing_slot_first_witness :
    (overlapTable 2).contains 0x1800 ∧ (overlapTable 5).contains 0x1800 ∧
    ∃ rest, (ExceptionHandler alwaysTrue overlapTable
      ⟨EXCEPTION_ACCESS_VIOLATION, 1, 0x1800⟩).2 = ⟨2, 7, 0x800, 1⟩ :: rest :=
  ⟨by decide, by decide,
    (C2_lowest_containing_slot_first alwaysTrue overlapTable
      ⟨EXCEPTION_ACCESS_VIOLATION, 1, 0x1800⟩ 0x1800 2
      (by decide) (by decide) (by decide) (by decide) (by decide) (by decide)).1⟩

/-- C3 as stated fails when a freed slot is reused: after `reuseOps` region R1
(registered by the second call) holds slot 1 and region R2 (registered by the
fourth call) holds slot 0; both are live and contain `0x1800`; with resolvers
that all return nonzero, the fault at `0x1800` calls the resolver of R2 and
never the resolver of R1. -/
theorem C3_counterexample :
    (run initState reuseOps).2 = [some 0, some 1, none, some 0] ∧
    (run initState reuseOps).1.g_regions 1 = ⟨1, 0x2000, 0x1000, 102, 11⟩ ∧
    (run initState reuseOps).1.g_regions 0 = ⟨1, 0x2000, 0x1000, 103, 22⟩ ∧
    ((run initState reuseOps).1.g_regions 1).contains 0x1800 ∧
    ((run initState reuseOps).1.g_regions 0).contains 0x1800 ∧
    ExceptionHandler alwaysTrue (run initState reuseOps).1.g_regions
      ⟨EXCEPTION_ACCESS_VIOLATION, 1, 0x1800⟩ =
      (EXCEPTION_CONTINUE_EXECUTION, [⟨0, 22, 0x800, 1⟩]) := by
  decide

/-- C3, amended: let region R1 be registered into slot `i` from any state, let
only registrations (no `StopTrackingRegion`) follow until region R2 is
registered into slot `j`, and let any calls follow that deregister neither
slot.  Then R1 holds the lower index, both slots still hold their
registration, and for an access violation at an address `a` contained in both
ranges, with the range of R1 ending below `2 ^ 64`: if the resolver of R1
returns nonzero on this fault the resolver of R2 is never called, and if no
live slot below `i` contains `a` the first call of the handler is the one of
R1. -/
theorem C3_earlier_registration_first (call : Resolvers) (s0 s1 s2 s3 s4 : State)
    (a1 sz1 act1 os1 a2 sz2 act2 os2 : Nat) (mid post : List Op) (i j : Slot)
    (rec : EXCEPTION_RECORD) (a : Nat)
    (hs1 : StartTrackingRegion a1 sz1 act1 os1 s0 = (s1, some i))
    (hmid : ∀ op ∈ mid, op.isStart) (hs2 : (run s1 mid).1 = s2)
    (hs3 : StartTrackingRegion a2 sz2 act2 os2 s2 = (s3, some j))
    (hpost : ∀ op ∈ post, op ≠ Op.stop i ∧ op ≠ Op.stop j) (hs4 : (run s3 post).1 = s4)
    (hwf : wellFormed s4.g_regions) (hrec : rec.isFaultAt a)
    (hin1 : a1 ≤ a ∧ a < a1 + sz1) (hend1 : a1 + sz1 < 2 ^ 64)
    (_hin2 : a2 ≤ a ∧ a < a2 + sz2) :
    i < j ∧
    s4.g_regions i = ⟨1, sz1, a1, os1, act1⟩ ∧
    s4.g_regions j = ⟨1, sz2, a2, os2, act2⟩ ∧
    (call act1 (a - a1) (toInt32 rec.ExceptionInformation0) ≠ 0 →
      ∀ inv ∈ (ExceptionHandler call s4.g_regions rec).2, inv.slot ≠ j) ∧
    ((∀ k, k < i → ¬((s4.g_regions k).live ∧ (s4.g_regions k).contains a)) →
      ∃ rest, (ExceptionHandler call s4.g_regions rec).2 =
        ⟨i, act1, a - a1, toInt32 rec.ExceptionInformation0⟩ :: rest) := by
  obtain ⟨_, hlo1, _, hg1⟩ := StartTrackingRegion_some a1 sz1 act1 os1 s0 s1 i hs1
  obtain ⟨hj0, _, _, hg3⟩ := StartTrackingRegion_some a2 sz2 act2 os2 s2 s3 j hs3
  -- after the first registration every slot up to `i` is live
  have hlive1 : ∀ m, m ≤ i → (s1.g_regions m).Valid ≠ 0 := by
    intro m hm
    rw [hg1]
    by_cases hmi : m = i
    · subst hmi; simp
    · rw [Function.update_noteq hmi]
      exact hlo1 m (lt_of_le_of_ne hm hmi)
  have hs1i : s1.g_regions i = ⟨1, sz1, a1, os1, act1⟩ := by rw [hg1]; simp
  -- the registrations in between leave these slots alone
  have hmid2 : ∀ m, m ≤ i → s2.g_regions m = s1.g_regions m := by
    intro m hm
    rw [← hs2]
    exact run_starts_live_slot mid s1 m (hlive1 m hm) hmid
  have hij : i < j := by
    by_contra hle
    have hji : j ≤ i := not_lt.mp hle
    exact hlive1 j hji (by rw [← hmid2 j hji]; exact hj0)
  have hs3i : s3.g_regions i = ⟨1, sz1, a1, os1, act1⟩ := by
    rw [hg3, Function.update_noteq (ne_of_lt hij), hmid2 i (le_refl i), hs1i]
  have hs3j : s3.g_regions j = ⟨1, sz2, a2, os2, act2⟩ := by rw [hg3]; simp
  have hs4i : s4.g_regions i = ⟨1, sz1, a1, os1, act1⟩ := by
    rw [← hs4, run_live_slot post s3 i (by rw [hs3i]; simp) (fun op hop => (hpost op hop).1),
      hs3i]
  have hs4j : s4.g_regions j = ⟨1, sz2, a2, os2, act2⟩ := by
    rw [← hs4, run_live_slot post s3 j (by rw [hs3j]; simp) (fun op hop => (hpost op hop).2),
      hs3j]
  have ha : a < 2 ^ 64 := lt_trans hin1.2 hend1
  have hhit : hits (s4.g_regions i) a = true := by
    apply (hits_iff (s4.g_regions i) a (hwf i).1 (hwf i).2 ha).mpr
    rw [hs4i]
    exact ⟨by simp [TrackedRegion.live], hin1, hend1⟩
  have hoff : faultOffset (s4.g_regions i) a = a - a1 := by
    rw [faultOffset_eq (s4.g_regions i) a (by rw [hs4i]; exact hin1.1) ha, hs4i]
  refine ⟨hij, hs4i, hs4j, ?_, ?_⟩
  · intro hc inv hinv hslot
    have hle := handler_resolved_blocks_higher call s4.g_regions rec a i hrec hhit
      (by rw [hoff, hs4i]; exact hc) inv hinv
    rw [hslot] at hle
    exact absurd hij (not_lt.mpr hle)
  · intro hlow
    obtain ⟨h1, _⟩ := handler_first_hit_first call s4.g_regions rec a i hrec hhit
      (lower_slots_miss s4.g_regions a hwf ha i hlow)
    simp only [invocationOf] at h1
    rw [hoff, hs4i] at h1
    exact h1

/-- C3 (amended) on R1 registered first into slot 0, another region into slot
1, R2 into slot 2, and the region in between deregistered: a write fault at
`0x1800` is dispatched to R1 first. -/
theorem C3_earlier_registration_first_witness :
    (0 : Slot) < 2 ∧
    afterPost.g_regions 0 = ⟨1, 0x2000, 0x1000, 102, 11⟩ ∧
    afterPost.g_regions 2 = ⟨1, 0x2000, 0x1000, 103, 22⟩ ∧
    ∃ rest, (ExceptionHandler alwaysTrue afterPost.g_regions
      ⟨EXCEPTION_ACCESS_VIOLATION, 1, 0x1800⟩).2 = ⟨0, 11, 0x800, 1⟩ :: rest :=
  have h := C3_earlier_registration_first alwaysTrue initState afterR1 afterMid afterR2 afterPost
    0x1000 0x2000 11 102 0x1000 0x2000 22 103 [Op.start 0x9000 0x1000 33 101] [Op.stop 1] 0 2
    ⟨EXCEPTION_ACCESS_VIOLATION, 1, 0x1800⟩ 0x1800
    (Prod.ext rfl (by decide)) (by decide) rfl (Prod.ext rfl (by decide)) (by decide) rfl
    (by decide) (by decide) (by decide) (by decide) (by decide)
  ⟨h.1, h.2.1, h.2.2.1, h.2.2.2.2 (by decide)⟩

/-- C4: after `StopTrackingRegion(h)` on a live handle `h`, followed by any
calls none of which returns slot `h` again, the handler makes no resolver call
for slot `h`, whatever the fault: every call it makes is for another slot that
is live and whose range contains the fault address, and when it makes no call
it declines. -/
theorem C4_stopped_slot_never_dispatched (call : Resolvers) (s : State) (h : Slot)
    (ops : List Op) (rec : EXCEPTION_RECORD)
    (_hlive : (s.g_regions h).live) (hwf : wellFormed s.g_regions)
    (hops : ∀ op ∈ ops, op.wellFormed) (hrec : rec.ExceptionInformation1 < 2 ^ 64)
    (hnot : some h ∉ (run (StopTrackingRegion h s) ops).2) :
    (∀ inv ∈ (ExceptionHandler call (run (StopTrackingRegion h s) ops).1.g_regions rec).2,
      inv.slot ≠ h ∧
      ((run (StopTrackingRegion h s) ops).1.g_regions inv.slot).live ∧
      ((run (StopTrackingRegion h s) ops).1.g_regions inv.slot).contains
        rec.ExceptionInformation1) ∧
    ((ExceptionHandler call (run (StopTrackingRegion h s) ops).1.g_regions rec).2 = [] →
      (ExceptionHandler call (run (StopTrackingRegion h s) ops).1.g_regions rec).1 =
        EXCEPTION_CONTINUE_SEARCH) := by
  have hfree0 : ((StopTrackingRegion h s).g_regions h).Valid = 0 := by
    simp [StopTrackingRegion, FreeRegion]
  have hwf0 : wellFormed (StopTrackingRegion h s).g_regions :=
    step_wellFormed s (Op.stop h) hwf trivial
  have hfree := run_free_slot ops (StopTrackingRegion h s) h hfree0 hnot
  have hwf1 := run_wellFormed ops (StopTrackingRegion h s) hwf0 hops
  refine ⟨?_, ExceptionHandler_nil_trace call _ rec⟩
  intro inv hinv
  obtain ⟨hhit, _⟩ := ExceptionHandler_mem call _ rec inv hinv
  obtain ⟨hl, hc⟩ := hits_live_contains _ _ hwf1 hrec inv.slot hhit
  refine ⟨?_, hl, hc⟩
  intro heq
  rw [heq] at hl
  exact hl hfree

/-- C4 on three registrations of the same range: the third is stopped, then the
first is stopped and its slot given to another region; the call the handler
makes for a write fault at `0x1800` is for slot 1, which is live and contains
the address. -/
theorem C4_stopped_slot_never_dispatched_witness :
    (threeRegionsState.g_regions 2).live ∧
    (run (StopTrackingRegion 2 threeRegionsState)
      [Op.stop 0, Op.start 0x7000 0x1000 44 104]).2 = [none, some 0] ∧
    (ExceptionHandler alwaysTrue afterStopTable ⟨EXCEPTION_ACCESS_VIOLATION, 1, 0x1800⟩).2 =
      [⟨1, 22, 0x800, 1⟩] ∧
    ((1 : Slot) ≠ 2 ∧ (afterStopTable 1).live ∧ (afterStopTable 1).contains 0x1800) :=
  ⟨by decide, by decide, by decide,
    (C4_stopped_slot_never_dispatched alwaysTrue threeRegionsState 2
      [Op.stop 0, Op.start 0x7000 0x1000 44 104] ⟨EXCEPTION_ACCESS_VIOLATION, 1, 0x1800⟩
      (by decide) (by decide) (by decide) (by decide) (by decide)).1 ⟨1, 22, 0x800, 1⟩
      (by decide)⟩

/-- C5 as stated fails for a range that ends at `2 ^ 64`: slot 3 tracks
`[2 ^ 64 - 0x2000, 2 ^ 64)`, is the lowest (the only) live slot containing the
fault address `2 ^ 64 - 1`, and its resolver returns nonzero, yet the handler
declines without calling it. -/
theorem C5_counterexample :
    wellFormed lastPagesTable ∧
    (lastPagesTable 3).live ∧
    (lastPagesTable 3).contains 0xFFFFFFFFFFFFFFFF ∧
    (∀ j : Slot, j < 3 →
      ¬((lastPagesTable j).live ∧ (lastPagesTable j).contains 0xFFFFFFFFFFFFFFFF)) ∧
    alwaysTrue (lastPagesTable 3).Action (0xFFFFFFFFFFFFFFFF - (lastPagesTable 3).Address)
      (toInt32 0) ≠ 0 ∧
    ExceptionHandler alwaysTrue lastPagesTable ⟨EXCEPTION_ACCESS_VIOLATION, 0, 0xFFFFFFFFFFFFFFFF⟩ =
      (EXCEPTION_CONTINUE_SEARCH, []) := by
  decide

/-- C5, amended: for every table and every access violation at `a`, if the
lowest-index live slot whose range contains `a` has its range end below
`2 ^ 64` and a resolver that returns nonzero on this fault, the handler returns
`EXCEPTION_CONTINUE_EXECUTION` and has made exactly one resolver call, the one
of that slot. -/
theorem C5_resolved_fault_resumes (call : Resolvers) (g : Table) (rec : EXCEPTION_RECORD)
    (a : Nat) (r : Slot) (hwf : wellFormed g) (hrec : rec.isFaultAt a)
    (hlive : (g r).live) (hin : (g r).contains a)
    (hend : (g r).Address + (g r).Size < 2 ^ 64)
    (hlow : ∀ j, j < r → ¬((g j).live ∧ (g j).contains a))
    (hc : call (g r).Action (a - (g r).Address) (toInt32 rec.ExceptionInformation0) ≠ 0) :
    ExceptionHandler call g rec =
      (EXCEPTION_CONTINUE_EXECUTION,
        [⟨r, (g r).Action, a - (g r).Address, toInt32 rec.ExceptionInformation0⟩]) := by
  have ha : a < 2 ^ 64 := lt_trans hin.2 hend
  have hhit : hits (g r) a = true :=
    (hits_iff (g r) a (hwf r).1 (hwf r).2 ha).mpr ⟨hlive, hin, hend⟩
  have hoff : faultOffset (g r) a = a - (g r).Address := faultOffset_eq (g r) a hin.1 ha
  rw [handler_first_hit_resolved call g rec a r hrec hhit (lower_slots_miss g a hwf ha r hlow)
    (by rw [hoff]; exact hc)]
  simp only [invocationOf, hoff]

/-- C5 on the scenario of the specification: region `[0x1000, 0x3000)` with an
always-true resolver and a write fault at `0x1800` give one call with offset
`0x800` and kind `1`, and the handler resumes. -/
theorem C5_resolved_fault_resumes_witness :
    oneRegionState.g_regions 0 = ⟨1, 0x2000, 0x1000, 99, 7⟩ ∧
    ExceptionHandler alwaysTrue oneRegionState.g_regions
      ⟨EXCEPTION_ACCESS_VIOLATION, 1, 0x1800⟩ =
      (EXCEPTION_CONTINUE_EXECUTION, [⟨0, 7, 0x800, 1⟩]) :=
  ⟨by decide,
    C5_resolved_fault_resumes alwaysTrue oneRegionState.g_regions
      ⟨EXCEPTION_ACCESS_VIOLATION, 1, 0x1800⟩ 0x1800 0
      (by decide) (by decide) (by decide) (by decide) (by decide) (by decide) (by decide)⟩

/-- C6 fails on the Windows handler: with two live slots on the same range, the
resolver of slot 0 returning zero and the resolver of slot 1 returning nonzero,
a write fault at `0x1800` makes the handler call the resolver of slot 0, go on
with the scan, call the resolver of slot 1 and return
`EXCEPTION_CONTINUE_EXECUTION`. -/
theorem C6_scan_continues_after_decline :
    twoRegionsState.g_regions 0 = ⟨1, 0x2000, 0x1000, 101, 11⟩ ∧
    twoRegionsState.g_regions 1 = ⟨1, 0x2000, 0x1000, 102, 22⟩ ∧
    onlySecondResolves 11 0x800 1 = 0 ∧
    ExceptionHandler onlySecondResolves twoRegionsState.g_regions
      ⟨EXCEPTION_ACCESS_VIOLATION, 1, 0x1800⟩ =
      (EXCEPTION_CONTINUE_EXECUTION, [⟨0, 11, 0x800, 1⟩, ⟨1, 22, 0x800, 1⟩]) := by
  decide

/-- C7: with all 32 slots live, `StartTrackingRegion` returns `NULL`, leaves the
table as it was in every slot and field, and leaves the list of installed
handlers as it was. -/
theorem C7_full_table_registration_fails (address size action osHandle : Nat) (s : State)
    (hfull : ∀ i, (s.g_regions i).live) :
    (StartTrackingRegion address size action osHandle s).2 = none ∧
    (StartTrackingRegion address size action osHandle s).1.g_regions = s.g_regions ∧
    (StartTrackingRegion address size action osHandle s).1.handlers = s.handlers := by
  rw [StartTrackingRegion_full address size action osHandle s hfull]
  exact ⟨rfl, rfl, rfl⟩

set_option maxRecDepth 20000 in
/-- C7 on the table filled by 32 registrations: the 33rd fails. -/
theorem C7_full_table_registration_fails_witness :
    (∀ i, (fullState.g_regions i).live) ∧
    (StartTrackingRegion 0x5000 0x1000 8 100 fullState).2 = none ∧
    (StartTrackingRegion 0x5000 0x1000 8 100 fullState).1.handlers = fullState.handlers :=
  have h := C7_full_table_registration_fails 0x5000 0x1000 8 100 fullState (by decide)
  ⟨by decide, h.1, h.2.2⟩

/-- C8: with a free slot in the table, if the hook installation is refused
(`AddVectoredExceptionHandler` returns `NULL`), `StartTrackingRegion` returns
`NULL` and the table after the call is the table before the call, in every slot
and field; the slot that `AllocateRegion` had marked for the call is free
again. -/
theorem C8_refused_hook_releases_slot (address size action osHandle : Nat) (s : State)
    (hfree : ∃ i, ¬ (s.g_regions i).live)
    (hrefused : (AddVectoredExceptionHandler s.handlers osHandle).2 = 0) :
    (StartTrackingRegion address size action osHandle s).2 = none ∧
    (StartTrackingRegion address size action osHandle s).1.g_regions = s.g_regions ∧
    (∃ i, (AllocateRegion s.g_regions).2 = some i ∧
      ((AllocateRegion s.g_regions).1 i).Valid = 1 ∧
      ((StartTrackingRegion address size action osHandle s).1.g_regions i).Valid = 0) := by
  have hos : osHandle = 0 := by
    by_contra hne
    simp [AddVectoredExceptionHandler, hne] at hrefused
  subst hos
  obtain ⟨k, hk⟩ := hfree
  have hk0 : (s.g_regions k).Valid = 0 := by
    by_contra hne
    exact hk hne
  obtain ⟨i, hi0, hlo⟩ := exists_first_free s.g_regions ⟨k, hk0⟩
  rw [StartTrackingRegion_refused address size action s i hi0 hlo,
    AllocateRegion_first_free s.g_regions i hi0 hlo]
  exact ⟨rfl, rfl, i, rfl, by simp, hi0⟩

/-- C8 on a table with one live region: a refused registration returns `NULL`
and leaves the table as it was. -/
theorem C8_refused_hook_releases_slot_witness :
    ¬ (oneRegionState.g_regions 1).live ∧
    (StartTrackingRegion 0x5000 0x1000 8 0 oneRegionState).2 = none ∧
    (StartTrackingRegion 0x5000 0x1000 8 0 oneRegionState).1.g_regions = oneRegionState.g_regions :=
  have h := C8_refused_hook_releases_slot 0x5000 0x1000 8 0 oneRegionState ⟨1, by decide⟩
    (by decide)
  ⟨by decide, h.1, h.2.1⟩

/-- C9: for every table and every exception whose code is not
`EXCEPTION_ACCESS_VIOLATION`, the handler returns `EXCEPTION_CONTINUE_SEARCH`
and calls no resolver, whatever the address entries of the record and the
registered regions. -/
theorem C9_other_exceptions_declined (call : Resolvers) (g : Table) (rec : EXCEPTION_RECORD)
    (hcode : rec.ExceptionCode ≠ EXCEPTION_ACCESS_VIOLATION) :
    ExceptionHandler call g rec = (EXCEPTION_CONTINUE_SEARCH, []) := by
  unfold ExceptionHandler
  rw [if_pos hcode]

/-- C9 on a breakpoint exception (`0x80000003`) whose address entry lies inside
a tracked region. -/
theorem C9_other_exceptions_declined_witness :
    (overlapTable 2).contains 0x1800 ∧
    ExceptionHandler alwaysTrue overlapTable ⟨0x80000003, 1, 0x1800⟩ =
      (EXCEPTION_CONTINUE_SEARCH, []) :=
  ⟨by decide, C9_other_exceptions_declined alwaysTrue overlapTable ⟨0x80000003, 1, 0x1800⟩
    (by decide)⟩

/-- C10: for every table and every access violation at an address `a` that lies
in the range of no live slot, the handler returns `EXCEPTION_CONTINUE_SEARCH`
and calls no resolver; on the empty table this holds for every record. -/
theorem C10_unmatched_fault_declined (call : Resolvers) (g : Table) (rec : EXCEPTION_RECORD)
    (a : Nat) (hwf : wellFormed g) (hrec : rec.isFaultAt a) (ha : a < 2 ^ 64)
    (hnone : ∀ i, ¬((g i).live ∧ (g i).contains a)) :
    ExceptionHandler call g rec = (EXCEPTION_CONTINUE_SEARCH, []) ∧
    ExceptionHandler call emptyTable rec = (EXCEPTION_CONTINUE_SEARCH, []) := by
  constructor
  · rw [ExceptionHandler_fault call g rec a hrec]
    apply ExceptionHandler.scan_no_hit
    intro j _
    by_contra hne
    exact hnone j (hits_live_contains g a hwf ha j (by simpa using hne))
  · rw [ExceptionHandler_fault call emptyTable rec a hrec]
    apply ExceptionHandler.scan_no_hit
    intro j _
    simp [hits, emptyTable]

/-- C10 on two tracked regions and a fault at `0x8000`, outside both. -/
theorem C10_unmatched_fault_declined_witness :
    ¬ (overlapTable 2).contains 0x8000 ∧ ¬ (overlapTable 5).contains 0x8000 ∧
    ExceptionHandler alwaysTrue overlapTable ⟨EXCEPTION_ACCESS_VIOLATION, 0, 0x8000⟩ =
      (EXCEPTION_CONTINUE_SEARCH, []) :=
  ⟨by decide, by decide,
    (C10_unmatched_fault_declined alwaysTrue overlapTable ⟨EXCEPTION_ACCESS_VIOLATION, 0, 0x8000⟩
      0x8000 (by decide) (by decide) (by decide) (by decide)).1⟩

/-! ## The handler list -/

/-- The number of handles a sequence of calls returned. -/
theorem run_starts_handlers (ops : List Op) (s : State) (hops : ∀ op ∈ ops, op.isStart) :
    (run s ops).1.handlers.length =
      s.handlers.length + ((run s ops).2.filter Option.isSome).length := by
  induction ops generalizing s with
  | nil => rfl
  | cons op ops ih =>
    have hop := hops op (List.mem_cons_self _ _)
    cases op with
    | stop region => exact absurd hop (by simp [Op.isStart])
    | start address size action osHandle =>
      have ih2 := ih (step s (Op.start address size action osHandle)).1
        (fun o ho => hops o (List.mem_cons_of_mem _ ho))
      simp only [run]
      rw [ih2]
      simp only [step]
      rcases StartTrackingRegion_cases address size action osHandle s with h | ⟨k, _, _, _, h⟩
      · rw [h]; simp
      · rw [h]; simp; omega

/-- C11 as stated fails: after two granted registrations into the empty table
two instances of the handler are installed; the second registration performed
the install operation as well. -/
theorem C11_counterexample :
    (run initState [Op.start 0x1000 0x2000 11 101, Op.start 0x1000 0x2000 22 102]).2 =
      [some 0, some 1] ∧
    (StartTrackingRegion 0x1000 0x2000 11 101 initState).1.handlers = [101] ∧
    twoRegionsState.handlers = [102, 101] ∧
    twoRegionsState.handlers.length = 2 := by
  decide

/-- C11, amended: every successful `StartTrackingRegion` performs the install
operation, putting one more instance of the handler at the front of the list
of the operating system and storing its handle in the slot; a failed
registration leaves the list as it was; `StopTrackingRegion` removes the
instance whose handle the slot stores.  Over a sequence of registrations the
number of installed instances grows by the number of successful ones. -/
theorem C11_every_registration_installs (s : State) (ops : List Op)
    (hops : ∀ op ∈ ops, op.isStart) :
    (∀ address size action osHandle i,
      (StartTrackingRegion address size action osHandle s).2 = some i →
        (StartTrackingRegion address size action osHandle s).1.handlers =
          osHandle :: s.handlers ∧
        ((StartTrackingRegion address size action osHandle s).1.g_regions i).Handle =
          osHandle) ∧
    (∀ address size action osHandle,
      (StartTrackingRegion address size action osHandle s).2 = none →
        (StartTrackingRegion address size action osHandle s).1.handlers = s.handlers) ∧
    (∀ region, (StopTrackingRegion region s).handlers =
      s.handlers.erase (s.g_regions region).Handle) ∧
    (run s ops).1.handlers.length =
      s.handlers.length + ((run s ops).2.filter Option.isSome).length := by
  refine ⟨?_, ?_, fun _ => rfl, run_starts_handlers ops s hops⟩
  · intro address size action osHandle i hres
    rcases StartTrackingRegion_cases address size action osHandle s with h | ⟨k, _, _, _, h⟩
    · rw [h] at hres; exact absurd hres (by simp)
    · rw [h] at hres ⊢
      have hki : k = i := Option.some.inj hres
      subst hki
      simp
  · intro address size action osHandle hres
    rcases StartTrackingRegion_cases address size action osHandle s with h | ⟨k, _, _, _, h⟩
    · rw [h]
    · rw [h] at hres; exact absurd hres (by simp)

/-- C11 (amended) on three registrations into the empty table: three instances
are installed. -/
theorem C11_every_registration_installs_witness :
    (∀ op ∈ [Op.start 0x1000 0x2000 11 101, Op.start 0x1000 0x2000 22 102,
      Op.start 0x1000 0x2000 33 103], op.isStart) ∧
    threeRegionsState.handlers.length = 0 + 3 :=
  ⟨by decide,
    (C11_every_registration_installs initState
      [Op.start 0x1000 0x2000 11 101, Op.start 0x1000 0x2000 22 102,
        Op.start 0x1000 0x2000 33 103] (by decide)).2.2.2⟩

/-- C13: `AllocateRegion` returns the free slot of lowest index and sets its
`Valid` to 1, with every other slot and every other field of that slot as
before; it returns `NULL` exactly when all 32 slots are live, and then the
table is as before. -/
theorem C13_allocate_lowest_free (g : Table) :
    (∀ i, (AllocateRegion g).2 = some i →
      (g i).Valid = 0 ∧ (∀ j, j < i → (g j).Valid ≠ 0) ∧
      ((AllocateRegion g).1 i).Valid = 1 ∧
      ((AllocateRegion g).1 i).Size = (g i).Size ∧
      ((AllocateRegion g).1 i).Address = (g i).Address ∧
      ((AllocateRegion g).1 i).Handle = (g i).Handle ∧
      ((AllocateRegion g).1 i).Action = (g i).Action ∧
      (∀ j, j ≠ i → (AllocateRegion g).1 j = g j)) ∧
    ((AllocateRegion g).2 = none ↔ ∀ i, (g i).Valid ≠ 0) ∧
    ((AllocateRegion g).2 = none → (AllocateRegion g).1 = g) := by
  rcases AllocateRegion_cases g with ⟨hfull, h⟩ | ⟨k, hk0, hlo, h⟩
  · rw [h]
    exact ⟨fun i hi => absurd hi (by simp), ⟨fun _ => hfull, fun _ => rfl⟩, fun _ => rfl⟩
  · rw [h]
    refine ⟨?_, ⟨fun hn => absurd hn (by simp), fun hall => absurd hk0 (hall k)⟩,
      fun hn => absurd hn (by simp)⟩
    intro i hi
    have hki : k = i := Option.some.inj hi
    subst hki
    refine ⟨hk0, hlo, by simp, by simp, by simp, by simp, by simp, ?_⟩
    intro j hj
    simp [Function.update_noteq hj]

/-- C14: `StopTrackingRegion(h)` sets `Valid` of slot `h` to 0 and changes
nothing else in the table: the other four fields of slot `h` and every field of
every other slot are as before. -/
theorem C14_stop_clears_valid_only (s : State) (h : Slot) :
    ((StopTrackingRegion h s).g_regions h).Valid = 0 ∧
    ((StopTrackingRegion h s).g_regions h).Address = (s.g_regions h).Address ∧
    ((StopTrackingRegion h s).g_regions h).Size = (s.g_regions h).Size ∧
    ((StopTrackingRegion h s).g_regions h).Handle = (s.g_regions h).Handle ∧
    ((StopTrackingRegion h s).g_regions h).Action = (s.g_regions h).Action ∧
    (∀ j, j ≠ h → (StopTrackingRegion h s).g_regions j = s.g_regions j) := by
  refine ⟨by simp [StopTrackingRegion, FreeRegion], by simp [StopTrackingRegion, FreeRegion],
    by simp [StopTrackingRegion, FreeRegion], by simp [StopTrackingRegion, FreeRegion],
    by simp [StopTrackingRegion, FreeRegion], ?_⟩
  intro j hj
  simp [StopTrackingRegion, FreeRegion, Function.update_noteq hj]

/-- C15: with a free slot in the table and a granted hook installation with
token `t`, `StartTrackingRegion(address, size, action)` returns a slot that
afterwards has `Valid = 1`, `Address = address`, `Size = size`, `Handle = t`
and `Action = action`, and every other slot is as before in every field. -/
theorem C15_start_fills_slot (address size action t : Nat) (s : State)
    (hfree : ∃ i, ¬ (s.g_regions i).live) (hgranted : t ≠ 0) :
    ∃ r, (StartTrackingRegion address size action t s).2 = some r ∧
      (StartTrackingRegion address size action t s).1.g_regions r =
        ⟨1, size, address, t, action⟩ ∧
      (∀ j, j ≠ r →
        (StartTrackingRegion address size action t s).1.g_regions j = s.g_regions j) := by
  obtain ⟨k, hk⟩ := hfree
  have hk0 : (s.g_regions k).Valid = 0 := by
    by_contra hne
    exact hk hne
  obtain ⟨i, hi0, hlo⟩ := exists_first_free s.g_regions ⟨k, hk0⟩
  rw [StartTrackingRegion_granted address size action t s i hi0 hlo hgranted]
  refine ⟨i, rfl, by simp, ?_⟩
  intro j hj
  simp [Function.update_noteq hj]

/-- C15 on a table with one live region: the second registration fills slot 1
and leaves slot 0 as it was. -/
theorem C15_start_fills_slot_witness :
    ¬ (oneRegionState.g_regions 1).live ∧
    ∃ r, (StartTrackingRegion 0x5000 0x1000 8 100 oneRegionState).2 = some r ∧
      (StartTrackingRegion 0x5000 0x1000 8 100 oneRegionState).1.g_regions r =
        ⟨1, 0x1000, 0x5000, 100, 8⟩ ∧
      (∀ j, j ≠ r → (StartTrackingRegion 0x5000 0x1000 8 100 oneRegionState).1.g_regions j =
        oneRegionState.g_regions j) :=
  ⟨by decide,
    C15_start_fills_slot 0x5000 0x1000 8 100 oneRegionState ⟨1, by decide⟩ (by decide)⟩

/-! ## Free slots are not read as data -/

/-- The scan gives the same result on two tables that agree on every `Valid`
flag and on every live slot. -/
theorem ExceptionHandler.scan_congr (call : Resolvers) (g1 g2 : Table) (a info0 : Nat)
    (hvalid : ∀ i, (g1 i).Valid = (g2 i).Valid)
    (hlive : ∀ i, (g1 i).Valid ≠ 0 → g1 i = g2 i) (l : List Slot) :
    ExceptionHandler.scan call g1 a info0 l = ExceptionHandler.scan call g2 a info0 l := by
  induction l with
  | nil => rfl
  | cons i rest ih =>
    by_cases hv : (g1 i).Valid = 0
    · have hv2 : (g2 i).Valid = 0 := by rw [← hvalid i]; exact hv
      have h1 : hits (g1 i) a = false := by simp [hits, hv]
      have h2 : hits (g2 i) a = false := by simp [hits, hv2]
      simp only [ExceptionHandler.scan, h1, h2, Bool.false_eq_true, if_false]
      exact ih
    · have heq := hlive i hv
      simp only [ExceptionHandler.scan, ← heq, ih]

/-- C16: for every fault and every two tables that agree on the `Valid` flag of
every slot and on all fields of every live slot, the handler makes the same
resolver calls with the same arguments in the same order and returns the same
decision. -/
theorem C16_free_slot_fields_ignored (call : Resolvers) (g1 g2 : Table)
    (rec : EXCEPTION_RECORD) (hvalid : ∀ i, (g1 i).Valid = (g2 i).Valid)
    (hlive : ∀ i, (g1 i).live → g1 i = g2 i) :
    ExceptionHandler call g1 rec = ExceptionHandler call g2 rec := by
  unfold ExceptionHandler
  by_cases hc : rec.ExceptionCode ≠ EXCEPTION_ACCESS_VIOLATION
  · rw [if_pos hc, if_pos hc]
  · rw [if_neg hc, if_neg hc]
    exact ExceptionHandler.scan_congr call g1 g2 _ _ hvalid hlive _

/-- C16 on the table left by a registration and deregistration of
`[0x1000, 0x3000)` against the empty table: the stale range in the free slot 0
is not dispatched to. -/
theorem C16_free_slot_fields_ignored_witness :
    (StopTrackingRegion 0 oneRegionState).g_regions 0 = ⟨0, 0x2000, 0x1000, 99, 7⟩ ∧
    ExceptionHandler alwaysTrue (StopTrackingRegion 0 oneRegionState).g_regions
      ⟨EXCEPTION_ACCESS_VIOLATION, 1, 0x1800⟩ =
    ExceptionHandler alwaysTrue emptyTable ⟨EXCEPTION_ACCESS_VIOLATION, 1, 0x1800⟩ :=
  ⟨by decide,
    C16_free_slot_fields_ignored alwaysTrue (StopTrackingRegion 0 oneRegionState).g_regions
      emptyTable ⟨EXCEPTION_ACCESS_VIOLATION, 1, 0x1800⟩ (by decide) (by decide)⟩

/-- C17 as stated fails for ranges that reach `2 ^ 64`: a live slot copy
tracking `[2 ^ 64 - 0x1000, 2 ^ 64)`, and one tracking
`[2 ^ 64 - 0x1000, 2 ^ 64 + 0x2000)`, contain the address `2 ^ 64 - 1` in the
unbounded sense, and the range test of the handler rejects it for both. -/
theorem C17_counterexample :
    (⟨1, 0x1000, 0xFFFFFFFFFFFFF000, 99, 7⟩ : TrackedRegion).contains 0xFFFFFFFFFFFFFFFF ∧
    hits ⟨1, 0x1000, 0xFFFFFFFFFFFFF000, 99, 7⟩ 0xFFFFFFFFFFFFFFFF = false ∧
    (⟨1, 0x3000, 0xFFFFFFFFFFFFF000, 99, 7⟩ : TrackedRegion).contains 0xFFFFFFFFFFFFFFFF ∧
    hits ⟨1, 0x3000, 0xFFFFFFFFFFFFF000, 99, 7⟩ 0xFFFFFFFFFFFFFFFF = false := by
  decide

/-- C17, amended: for every live slot copy with 64-bit `Address` and `Size` and
every 64-bit fault address `a`, the range test of the handler holds exactly
when `Address <= a < Address + Size` and `Address + Size` is below `2 ^ 64`; a
slot whose `Address + Size` reaches or exceeds `2 ^ 64` passes the test for no
address. -/
theorem C17_range_test_without_wrap (rg : TrackedRegion) (a : Nat) (hlive : rg.live)
    (hA : rg.Address < 2 ^ 64) (hS : rg.Size < 2 ^ 64) (ha : a < 2 ^ 64) :
    (hits rg a = true ↔ rg.contains a ∧ rg.Address + rg.Size < 2 ^ 64) ∧
    (2 ^ 64 ≤ rg.Address + rg.Size → hits rg a = false) := by
  have h := hits_iff rg a hA hS ha
  constructor
  · constructor
    · intro hh
      exact ((h.mp hh).2)
    · intro hh
      exact h.mpr ⟨hlive, hh⟩
  · intro hge
    by_contra hne
    have hh : hits rg a = true := by simpa using hne
    exact absurd (h.mp hh).2.2 (not_lt.mpr hge)

/-- C17 (amended) on the range `[0x1000, 0x3000)`: the test accepts its last
byte `0x2FFF` and rejects its end `0x3000`. -/
theorem C17_range_test_without_wrap_witness :
    hits ⟨1, 0x2000, 0x1000, 99, 7⟩ 0x2FFF = true ∧
    ¬ hits ⟨1, 0x2000, 0x1000, 99, 7⟩ 0x3000 = true :=
  ⟨((C17_range_test_without_wrap ⟨1, 0x2000, 0x1000, 99, 7⟩ 0x2FFF (by decide) (by decide)
      (by decide) (by decide)).1).mpr (by decide),
    fun h => absurd (((C17_range_test_without_wrap ⟨1, 0x2000, 0x1000, 99, 7⟩ 0x3000
      (by decide) (by decide) (by decide) (by decide)).1).mp h).1.2 (by decide)⟩

/-- C18 fails on the Windows handler: for an access violation with access type
8 (execute) at `0x1800` inside the tracked region, the resolver is called with
second argument 8, which is nonzero, although the access was not a write; for
access types 0 and 1 the argument is 0 and 1. -/
theorem C18_execute_fault_kind_nonzero :
    ExceptionHandler alwaysTrue oneRegionState.g_regions
      ⟨EXCEPTION_ACCESS_VIOLATION, 8, 0x1800⟩ =
      (EXCEPTION_CONTINUE_EXECUTION, [⟨0, 7, 0x800, 8⟩]) ∧
    (8 : Int) ≠ 0 ∧
    ExceptionHandler alwaysTrue oneRegionState.g_regions
      ⟨EXCEPTION_ACCESS_VIOLATION, 0, 0x1800⟩ =
      (EXCEPTION_CONTINUE_EXECUTION, [⟨0, 7, 0x800, 0⟩]) ∧
    ExceptionHandler alwaysTrue oneRegionState.g_regions
      ⟨EXCEPTION_ACCESS_VIOLATION, 1, 0x1800⟩ =
      (EXCEPTION_CONTINUE_EXECUTION, [⟨0, 7, 0x800, 1⟩]) := by
  decide

/-- C20: for every table with 64-bit fields and every fault, each resolver call
the handler makes for a slot has an offset that is the plain difference of the
fault address and the `Address` of the slot, with `Address` not above the fault
address, and that is below the `Size` of the slot; so the `Size` of a slot
that is dispatched to is not zero. -/
theorem C20_offset_within_region (call : Resolvers) (g : Table) (rec : EXCEPTION_RECORD)
    (hwf : wellFormed g) (ha : rec.ExceptionInformation1 < 2 ^ 64) :
    ∀ inv ∈ (ExceptionHandler call g rec).2,
      (g inv.slot).Address ≤ rec.ExceptionInformation1 ∧
      inv.offset = rec.ExceptionInformation1 - (g inv.slot).Address ∧
      inv.offset < (g inv.slot).Size ∧
      (g inv.slot).Size ≠ 0 := by
  intro inv hinv
  obtain ⟨hhit, heq⟩ := ExceptionHandler_mem call g rec inv hinv
  obtain ⟨_, hc⟩ := hits_live_contains g _ hwf ha inv.slot hhit
  have hoff : inv.offset = rec.ExceptionInformation1 - (g inv.slot).Address := by
    have h1 : inv.offset = faultOffset (g inv.slot) rec.ExceptionInformation1 := by
      conv_lhs => rw [heq]
      rfl
    rw [h1, faultOffset_eq (g inv.slot) _ hc.1 ha]
  unfold TrackedRegion.contains at hc
  refine ⟨hc.1, hoff, ?_, ?_⟩
  · rw [hoff]; omega
  · omega

/-- C20 on two overlapping regions with resolvers that decline: both calls have
offsets inside their regions. -/
theorem C20_offset_within_region_witness :
    (ExceptionHandler (fun _ _ _ => 0) overlapTable ⟨EXCEPTION_ACCESS_VIOLATION, 1, 0x1800⟩).2 =
      [⟨2, 7, 0x800, 1⟩, ⟨5, 8, 0x1800, 1⟩] ∧
    ((overlapTable 5).Address ≤ 0x1800 ∧
      (⟨5, 8, 0x1800, 1⟩ : Invocation).offset = 0x1800 - (overlapTable 5).Address ∧
      (⟨5, 8, 0x1800, 1⟩ : Invocation).offset < (overlapTable 5).Size ∧
      (overlapTable 5).Size ≠ 0) :=
  ⟨by decide,
    C20_offset_within_region (fun _ _ _ => 0) overlapTable
      ⟨EXCEPTION_ACCESS_VIOLATION, 1, 0x1800⟩ (by decide) (by decide) ⟨5, 8, 0x1800, 1⟩
      (by decide)⟩

/-! ## The steps of a registration -/

/-- C12 as stated fails: registering `[0x9000, 0xA000)` with resolver pointer 22
into the table whose free slot 0 still carries `[0x1000, 0x3000)` and resolver
pointer 7 goes through states in which slot 0 has `Valid = 1` together with
the old range and the old resolver; a write fault at `0x1800` handled in the
first of these states calls the old resolver. -/
theorem C12_counterexample :
    (StartTrackingRegion.states 0x9000 0x1000 22 103 staleState).map
        (fun t => t.g_regions 0) =
      [⟨1, 0x2000, 0x1000, 99, 7⟩, ⟨1, 0x2000, 0x1000, 99, 7⟩, ⟨1, 0x2000, 0x9000, 99, 7⟩,
       ⟨1, 0x1000, 0x9000, 99, 7⟩, ⟨1, 0x1000, 0x9000, 103, 7⟩,
       ⟨1, 0x1000, 0x9000, 103, 22⟩] ∧
    ((StartTrackingRegion.states 0x9000 0x1000 22 103 staleState).map
        (fun t => ExceptionHandler alwaysTrue t.g_regions
          ⟨EXCEPTION_ACCESS_VIOLATION, 1, 0x1800⟩)).head? =
      some (EXCEPTION_CONTINUE_EXECUTION, [⟨0, 7, 0x800, 1⟩]) := by
  decide

/-- C12, amended: the steps of a `StartTrackingRegion` call end in the state the
call returns, and in every intermediate state every slot that was live before
the call holds exactly the fields it held before the call; the slot the call
returns has `Valid = 1` from the first step on, at that step still with the
`Address`, `Size`, `Handle` and `Action` it carried before the call. -/
theorem C12_registration_steps (address size action osHandle : Nat) (s : State) :
    (StartTrackingRegion.states address size action osHandle s).getLastD s =
      (StartTrackingRegion address size action osHandle s).1 ∧
    (∀ t ∈ StartTrackingRegion.states address size action osHandle s,
      ∀ j, (s.g_regions j).live → t.g_regions j = s.g_regions j) ∧
    (∀ i, (StartTrackingRegion address size action osHandle s).2 = some i →
      (∀ t ∈ StartTrackingRegion.states address size action osHandle s,
        (t.g_regions i).Valid = 1) ∧
      ∃ t rest, StartTrackingRegion.states address size action osHandle s = t :: rest ∧
        t.g_regions i = { s.g_regions i with Valid := 1 }) := by
  unfold StartTrackingRegion.states StartTrackingRegion
  rcases AllocateRegion_cases s.g_regions with ⟨_, h⟩ | ⟨k, hk0, _, h⟩
  · rw [h]
    refine ⟨rfl, fun t ht => absurd ht (by simp), fun i hi => absurd hi (by simp)⟩
  · rw [h]
    have hne : ∀ j, (s.g_regions j).live → j ≠ k := by
      intro j hj hjk
      rw [hjk] at hj
      exact hj hk0
    by_cases hos : osHandle = 0
    · subst hos
      simp only [AddVectoredExceptionHandler, if_true]
      refine ⟨rfl, ?_, fun i hi => absurd hi (by simp)⟩
      intro t ht j hj
      have hjk := hne j hj
      simp only [List.mem_cons, List.mem_singleton, List.not_mem_nil, or_false] at ht
      rcases ht with ht | ht | ht <;> subst ht <;>
        simp [FreeRegion, Function.update_noteq hjk]
    · simp only [AddVectoredExceptionHandler, if_neg hos]
      refine ⟨by simp, ?_, ?_⟩
      · intro t ht j hj
        have hjk := hne j hj
        simp only [List.mem_cons, List.mem_singleton, List.not_mem_nil, or_false] at ht
        rcases ht with ht | ht | ht | ht | ht | ht <;> subst ht <;>
          simp [Function.update_noteq hjk]
      · intro i hi
        have hki : k = i := Option.some.inj hi
        subst hki
        refine ⟨?_, _, _, rfl, by simp⟩
        intro t ht
        simp only [List.mem_cons, List.mem_singleton, List.not_mem_nil, or_false] at ht
        rcases ht with ht | ht | ht | ht | ht | ht <;> subst ht <;> simp

/-! ## The sequence of calls of the handler -/

/-- The calls of a scan are the slots of the list that pass the range test,
taken up to and including the first whose resolver returns nonzero. -/
theorem ExceptionHandler.scan_calls (call : Resolvers) (g : Table) (a info0 : Nat)
    (l : List Slot) :
    (ExceptionHandler.scan call g a info0 l).2 =
      upToFirst (resolves call)
        ((l.filter (fun i => hits (g i) a)).map (invocationOf g a info0)) := by
  induction l with
  | nil => rfl
  | cons i rest ih =>
    by_cases hi : hits (g i) a = true
    · by_cases hc : call (g i).Action (faultOffset (g i) a) (toInt32 info0) = 0
      · rw [ExceptionHandler.scan_hit_declined call g a info0 i rest hi hc]
        simp only [List.filter_cons, hi, if_true, List.map_cons, upToFirst]
        have hr : resolves call (invocationOf g a info0 i) = false := by
          simp [resolves, invocationOf, hc]
        rw [hr, ih]
        rfl
      · rw [ExceptionHandler.scan_hit_resolved call g a info0 i rest hi hc]
        simp only [List.filter_cons, hi, if_true, List.map_cons, upToFirst]
        have hr : resolves call (invocationOf g a info0 i) = true := by
          simp [resolves, invocationOf, hc]
        rw [hr]
        rfl
    · have hi2 : hits (g i) a = false := by simpa using hi
      have := ExceptionHandler.scan_skip call g a info0 [i] rest
        (fun j hj => by rw [List.mem_singleton.mp hj]; exact hi2)
      rw [List.singleton_append] at this
      rw [this, ih]
      simp [List.filter_cons, hi2]

/-- A scan resumes exactly when one of its calls returned nonzero. -/
theorem ExceptionHandler.scan_resumes_iff (call : Resolvers) (g : Table) (a info0 : Nat)
    (l : List Slot) :
    (ExceptionHandler.scan call g a info0 l).1 = EXCEPTION_CONTINUE_EXECUTION ↔
      ∃ inv ∈ (ExceptionHandler.scan call g a info0 l).2,
        call inv.action inv.offset inv.kind ≠ 0 := by
  induction l with
  | nil => simp [ExceptionHandler.scan, EXCEPTION_CONTINUE_SEARCH, EXCEPTION_CONTINUE_EXECUTION]
  | cons i rest ih =>
    by_cases hi : hits (g i) a = true
    · by_cases hc : call (g i).Action (faultOffset (g i) a) (toInt32 info0) = 0
      · rw [ExceptionHandler.scan_hit_declined call g a info0 i rest hi hc]
        simp only [List.mem_cons, exists_eq_or_imp]
        rw [ih]
        constructor
        · intro h; exact Or.inr h
        · rintro (h | h)
          · exact absurd hc h
          · exact h
      · rw [ExceptionHandler.scan_hit_resolved call g a info0 i rest hi hc]
        constructor
        · intro _
          exact ⟨invocationOf g a info0 i, List.mem_singleton.mpr rfl, hc⟩
        · intro _; rfl
    · have hi2 : hits (g i) a = false := by simpa using hi
      have := ExceptionHandler.scan_skip call g a info0 [i] rest
        (fun j hj => by rw [List.mem_singleton.mp hj]; exact hi2)
      rw [List.singleton_append] at this
      rw [this]
      exact ih

/-- The slots called by a scan form a sublist of the scanned indices. -/
theorem ExceptionHandler.scan_slots_sublist (call : Resolvers) (g : Table) (a info0 : Nat)
    (l : List Slot) :
    ((ExceptionHandler.scan call g a info0 l).2.map (fun inv => inv.slot)).Sublist l := by
  induction l with
  | nil => simp [ExceptionHandler.scan]
  | cons i rest ih =>
    by_cases hi : hits (g i) a = true
    · by_cases hc : call (g i).Action (faultOffset (g i) a) (toInt32 info0) = 0
      · rw [ExceptionHandler.scan_hit_declined call g a info0 i rest hi hc]
        simp only [List.map_cons, invocationOf]
        exact ih.cons₂ i
      · rw [ExceptionHandler.scan_hit_resolved call g a info0 i rest hi hc]
        simp only [List.map_cons, List.map_nil, invocationOf]
        exact (List.nil_sublist rest).cons₂ i
    · have hi2 : hits (g i) a = false := by simpa using hi
      have := ExceptionHandler.scan_skip call g a info0 [i] rest
        (fun j hj => by rw [List.mem_singleton.mp hj]; exact hi2)
      rw [List.singleton_append] at this
      rw [this]
      exact ih.cons i

/-- C19 as stated fails for a live slot whose range reaches `2 ^ 64`: in
`topOverlapTable` slots 0 and 1 are live and both contain `2 ^ 64 - 2`; with
resolvers that all return zero the handler calls only the resolver of slot 1
and never the one of slot 0. -/
theorem C19_counterexample :
    (topOverlapTable 0).live ∧ (topOverlapTable 0).contains 0xFFFFFFFFFFFFFFFE ∧
    (topOverlapTable 1).live ∧ (topOverlapTable 1).contains 0xFFFFFFFFFFFFFFFE ∧
    ExceptionHandler neverResolves topOverlapTable
      ⟨EXCEPTION_ACCESS_VIOLATION, 0, 0xFFFFFFFFFFFFFFFE⟩ =
      (EXCEPTION_CONTINUE_SEARCH, [⟨1, 22, 0x2FFE, 0⟩]) := by
  decide

/-- C19, amended: for every table with 64-bit fields and every access violation
at `a`, the resolver calls of the handler are exactly those of the live slots
whose range contains `a` and ends below `2 ^ 64`, in ascending slot index, up
to and including the first whose resolver returns nonzero (all of them if none
does); the slots called are strictly ascending, so each is called at most
once; and the handler returns `EXCEPTION_CONTINUE_EXECUTION` exactly when one
of the calls returned nonzero. -/
theorem C19_calls_in_slot_order (call : Resolvers) (g : Table) (rec : EXCEPTION_RECORD)
    (a : Nat) (hwf : wellFormed g) (hrec : rec.isFaultAt a) (ha : a < 2 ^ 64) :
    (ExceptionHandler call g rec).2 = dispatchedCalls call g a rec.ExceptionInformation0 ∧
    ((ExceptionHandler call g rec).2.map (fun inv => inv.slot)).Pairwise (fun i j => i < j) ∧
    ((ExceptionHandler call g rec).1 = EXCEPTION_CONTINUE_EXECUTION ↔
      ∃ inv ∈ (ExceptionHandler call g rec).2, call inv.action inv.offset inv.kind ≠ 0) := by
  rw [ExceptionHandler_fault call g rec a hrec]
  refine ⟨?_, ?_, ExceptionHandler.scan_resumes_iff call g a _ slotIndices⟩
  · rw [ExceptionHandler.scan_calls]
    unfold dispatchedCalls
    congr 2
    apply List.filter_congr
    intro i _
    by_cases hh : hits (g i) a = true
    · rw [hh]
      exact (decide_eq_true ((hits_iff (g i) a (hwf i).1 (hwf i).2 ha).mp hh)).symm
    · have hh2 : hits (g i) a = false := by simpa using hh
      rw [hh2]
      exact (decide_eq_false
        (fun hp => hh ((hits_iff (g i) a (hwf i).1 (hwf i).2 ha).mpr hp))).symm
  · exact List.Pairwise.sublist (ExceptionHandler.scan_slots_sublist call g a _ slotIndices)
      slotIndices_sorted

/-- C19 (amended) on two overlapping regions in slots 2 and 5 with resolvers
that decline: both are called, in slot order, and the handler declines. -/
theorem C19_calls_in_slot_order_witness :
    dispatchedCalls neverResolves overlapTable 0x1800 1 =
      [⟨2, 7, 0x800, 1⟩, ⟨5, 8, 0x1800, 1⟩] ∧
    (ExceptionHandler neverResolves overlapTable ⟨EXCEPTION_ACCESS_VIOLATION, 1, 0x1800⟩).2 =
      dispatchedCalls neverResolves overlapTable 0x1800 1 :=
  ⟨by decide,
    (C19_calls_in_slot_order neverResolves overlapTable ⟨EXCEPTION_ACCESS_VIOLATION, 1, 0x1800⟩
      0x1800 (by decide) (by decide) (by decide)).1⟩

end Ryujinx
